import Mathlib

/-!
Verification development for the GlanceAPI reconciliation controller
(`src/controllers/glanceapi_controller.go`, function `Reconcile` plus the
status setters `setDbSyncHash` and `setDeploymentHash`).

The controller is embedded shallowly as a pure pass function over an explicit
object-store state.  Every call the controller issues against the object store
is recorded in a trace, and a fault model lets a chosen call return a
non-NotFound store error, so that error-propagation behaviour is provable.

Repository code that `Reconcile` calls but that is not under `src/` (the
templating functions in `pkg/`, `glance.EnsureJob`, `glance.DeleteJob`, and
`util.ObjectHash` from lib-common) is modelled from the spec; each such
definition carries a doc comment starting with `Modelled from the spec:`.
-/

namespace GlanceOp

/-- Kinds of calls the reconciler issues against the object store.  Each kind
corresponds to one call site in `Reconcile` (or in the spec-modelled helpers);
the two status-subresource updates are tagged by their call site
(`setDbSyncHash` vs `setDeploymentHash`). -/
inductive OpKind where
  | getInstance | getPvc | createPvc
  | getService | createService
  | getConfigMap | createConfigMap | updateConfigMap
  | getSchema | createSchema
  | getJob | createJob | deleteJob
  | statusUpdateDbSync | statusUpdateDeployment
  | getDeployment | createDeployment | updateDeployment
deriving DecidableEq

/-- Trace of store calls performed during (part of) a reconciliation pass,
in program order. -/
abbrev Trace := List OpKind

/-- Fault model: `f k = true` means that a call of kind `k` returns a
transient, non-NotFound store error when executed. -/
abbrev Faults := OpKind → Bool

/-- The fault assignment under which every store call succeeds. -/
def noFaults : Faults := fun _ => false

/-- Classifies a store call as a create, update or status-update (the write
calls the idempotence properties count). -/
def isWrite : OpKind → Bool
  | .createPvc | .createService | .createConfigMap | .updateConfigMap
  | .createSchema | .createJob
  | .statusUpdateDbSync | .statusUpdateDeployment
  | .createDeployment | .updateDeployment => true
  | _ => false

/-- The Spec sub-record of a GlanceAPI object: the scalar configuration the
templating functions read (`Replicas` plus the remaining scalar configuration,
collapsed into one `config` field since only the templated outputs matter). -/
structure GlanceAPISpec where
  replicas : Int
  config : String
deriving DecidableEq

/-- The Status sub-record of a GlanceAPI object: `DbSyncHash` and
`DeploymentHash` (Go strings, empty when never written). -/
structure GlanceAPIStatus where
  dbSyncHash : String
  deploymentHash : String
deriving DecidableEq

/-- A GlanceAPI object: the Specification (`Spec` read-only to the engine)
and the engine-owned `Status`. -/
structure GlanceAPI where
  spec : GlanceAPISpec
  status : GlanceAPIStatus
deriving DecidableEq

/-- A live batch job, as the controller observes it: whether it has reached
terminal success, and whether it has failed. -/
structure JobObj where
  succeeded : Bool
  failed : Bool
deriving DecidableEq

/-- Observed state of the unstructured schema object's `status.completed`
flag: present and true, present and false (or missing, which `NestedBool`
also reports as `false` without an error), or malformed (a non-boolean value,
which `NestedBool` reports as `false` together with an error). -/
inductive SchemaStatus where
  | completed
  | notCompleted
  | malformed
deriving DecidableEq

/-- Desired deployment description: what `glance.Deployment(instance,
configHash, scheme)` produces — a pure function of the Specification's scalar
fields and the config-map fingerprint. -/
structure DeploySpec where
  replicas : Int
  config : String
  configHash : String
deriving DecidableEq

/-- A live deployment: its spec and the observed ready-replica count. -/
structure DeploymentObj where
  spec : DeploySpec
  readyReplicas : Int
deriving DecidableEq

/-- The object store, holding at most one object of each managed kind for the
one reconciled instance (objects are keyed by the instance's identity, so one
`Option` per kind; `api` is the GlanceAPI object itself).  PVC and Service are
existence-only: the controller never compares their content. -/
structure Store where
  api : Option GlanceAPI
  pvc : Bool
  service : Bool
  configMap : Option String
  schema : Option SchemaStatus
  job : Option JobObj
  deployment : Option DeploymentObj
deriving DecidableEq

/-- Errors a pass can return: a store error from a call of the given kind, an
error from reading the schema object's completion flag (`NestedBool`), or the
distinct error surfacing a failed DB-sync job. -/
inductive RError where
  | storeErr (k : OpKind)
  | nestedBoolErr
  | jobFailedErr
deriving DecidableEq

/-- The `ctrl.Result` value a pass returns: `requeueAfter = some n` models
`ctrl.Result{RequeueAfter: time.Second * n}`, `none` models the zero result. -/
structure RResult where
  requeueAfter : Option Nat
deriving DecidableEq

/-- Outcome of one reconciliation pass: the returned result and error, the
object store after the pass, and the trace of store calls performed. -/
structure Outcome where
  res : RResult
  err : Option RError
  store : Store
  trace : Trace
deriving DecidableEq

/-- Modelled from the spec: `desiredConfigMap(spec)` — the Data of the config
bundle produced by `glance.ConfigMap`, a pure function of the Specification
(§6).  The Go zero value (a nil map) is modelled by the empty string. -/
def configMapData (i : GlanceAPI) : String :=
  "glance-api-config:" ++ i.spec.config

/-- Modelled from the spec: `desiredMigrationJob(spec)` — the description of
the one-shot DB-sync job produced by `glance.DbSyncJob`, a pure function of
the Specification (§6). -/
def dbSyncJobDesc (i : GlanceAPI) : String :=
  "glance-db-sync:" ++ i.spec.config

/-- Modelled from the spec: `util.ObjectHash` / the Fingerprint Engine
(§4.1) — a deterministic digest of the description's canonical serialized
content, modelled as that content itself (tagged); equal content gives equal
fingerprints, and serialization never fails in the model. -/
def objectHash (s : String) : String :=
  "hash(" ++ s ++ ")"

/-- Modelled from the spec: `desiredDeployment(spec, configHash)` — the
deployment description produced by `glance.Deployment`, a pure function of the
Specification's scalar fields and the config fingerprint (§6). -/
def deploymentDesc (i : GlanceAPI) (configHash : String) : DeploySpec :=
  ⟨i.spec.replicas, i.spec.config, configHash⟩

/-- Canonical serialization of a deployment description, feeding the
fingerprint engine. -/
def deployDescStr (d : DeploySpec) : String :=
  toString d.replicas ++ "/" ++ d.config ++ "/" ++ d.configHash

/-- Fingerprint of a deployment description (`util.ObjectHash(deployment)`). -/
def deploymentObjectHash (d : DeploySpec) : String :=
  objectHash (deployDescStr d)

/-- One step of the pass: either the pass returns (`done`, carrying the
`ctrl.Result`, the error, the store and the call-trace segment of this step),
or control continues to the next phase (`next`, carrying the value the phase
produces, the store, and the segment). -/
inductive Step (α : Type) where
  | done (res : RResult) (err : Option RError) (s : Store) (tr : Trace)
  | next (a : α) (s : Store) (tr : Trace)

/-- Trace segment of a step. -/
def Step.trace : Step α → Trace
  | .done _ _ _ tr => tr
  | .next _ _ tr => tr

/-- Store after a step. -/
def Step.store : Step α → Store
  | .done _ _ s _ => s
  | .next _ s _ => s

/-- Prepend an already-accumulated trace to a step's segment. -/
def Step.withPre (pre : Trace) : Step α → Step α
  | .done r e s tr => .done r e s (pre ++ tr)
  | .next a s tr => .next a s (pre ++ tr)

/-- Sequence a step with the rest of the pass: an early `return` in the Go
code propagates, otherwise the continuation runs on the updated store and the
traces accumulate. -/
def Step.andThen (st : Step α) (k : α → Store → Step β) : Step β :=
  match st with
  | .done r e s tr => .done r e s tr
  | .next a s tr => (k a s).withPre tr

/-- Package the end of the pass: falling off the end of `Reconcile` returns
the zero `ctrl.Result` and nil error (line 231). -/
def Step.finish : Step α → Outcome
  | .done r e s tr => ⟨r, e, s, tr⟩
  | .next _ s tr => ⟨⟨none⟩, none, s, tr⟩

/-- Lines 58–70: fetch the GlanceAPI instance; NotFound returns the zero
result with nil error, any other get error is returned. -/
def fetchInstance (f : Faults) (s : Store) : Step GlanceAPI :=
  if f .getInstance then
    .done ⟨none⟩ (some (.storeErr .getInstance)) s [.getInstance]
  else
    match s.api with
    | none => .done ⟨none⟩ none s [.getInstance]
    | some i => .next i s [.getInstance]

/-- Lines 72–88: PVC phase.  Get; on NotFound create and return
`RequeueAfter: 5s` (with nil error, since the create succeeded); on any other
get error return it; otherwise continue. -/
def pvcPhase (f : Faults) (s : Store) : Step Unit :=
  if f .getPvc then
    .done ⟨none⟩ (some (.storeErr .getPvc)) s [.getPvc]
  else if s.pvc then
    .next () s [.getPvc]
  else if f .createPvc then
    .done ⟨none⟩ (some (.storeErr .createPvc)) s [.getPvc, .createPvc]
  else
    .done ⟨some 5⟩ none { s with pvc := true } [.getPvc, .createPvc]

/-- Lines 90–106: Service phase, same shape as the PVC phase. -/
def servicePhase (f : Faults) (s : Store) : Step Unit :=
  if f .getService then
    .done ⟨none⟩ (some (.storeErr .getService)) s [.getService]
  else if s.service then
    .next () s [.getService]
  else if f .createService then
    .done ⟨none⟩ (some (.storeErr .createService)) s [.getService, .createService]
  else
    .done ⟨some 5⟩ none { s with service := true } [.getService, .createService]

/-- Lines 108–127: ConfigMap phase.  NOTE, faithfully to the Go code: this
block has no `else if err != nil` branch, so a non-NotFound get error falls
into the `reflect.DeepEqual` comparison against the zero-valued
`foundConfigMap` (Data modelled as `""`) and, when the desired Data differs,
issues an update whose error overwrites `err` — the get error is discarded.
The store in this model keys objects by kind, so the update is recorded
against the config-map slot.  After a successful create the Go code does not
return: control falls through to the schema phase.  After a successful update
it returns `RequeueAfter: 5s` with nil error. -/
def configMapPhase (f : Faults) (i : GlanceAPI) (s : Store) : Step Unit :=
  let desired := configMapData i
  if f .getConfigMap then
    if desired ≠ "" then
      if f .updateConfigMap then
        .done ⟨none⟩ (some (.storeErr .updateConfigMap)) s [.getConfigMap, .updateConfigMap]
      else
        .done ⟨some 5⟩ none { s with configMap := some desired } [.getConfigMap, .updateConfigMap]
    else
      .next () s [.getConfigMap]
  else
    match s.configMap with
    | none =>
      if f .createConfigMap then
        .done ⟨none⟩ (some (.storeErr .createConfigMap)) s [.getConfigMap, .createConfigMap]
      else
        .next () { s with configMap := some desired } [.getConfigMap, .createConfigMap]
    | some d =>
      if desired ≠ d then
        if f .updateConfigMap then
          .done ⟨none⟩ (some (.storeErr .updateConfigMap)) s [.getConfigMap, .updateConfigMap]
        else
          .done ⟨some 5⟩ none { s with configMap := some desired } [.getConfigMap, .updateConfigMap]
      else
        .next () s [.getConfigMap]

/-- Lines 129–151: schema (dependency-gate) phase.  Get; on NotFound create
the schema object — NOTE, faithfully to the Go code, after a successful
create control falls through to the job phase without returning; a freshly
created schema object has `status.completed` unset.  When found, read
`status.completed` via `NestedBool`: completed continues; not completed
returns `RequeueAfter: 5s` together with `err` from `NestedBool` (nil unless
the flag is malformed). -/
def schemaPhase (f : Faults) (s : Store) : Step Unit :=
  if f .getSchema then
    .done ⟨none⟩ (some (.storeErr .getSchema)) s [.getSchema]
  else
    match s.schema with
    | none =>
      if f .createSchema then
        .done ⟨none⟩ (some (.storeErr .createSchema)) s [.getSchema, .createSchema]
      else
        .next () { s with schema := some .notCompleted } [.getSchema, .createSchema]
    | some .completed => .next () s [.getSchema]
    | some .notCompleted => .done ⟨some 5⟩ none s [.getSchema]
    | some .malformed => .done ⟨some 5⟩ (some .nestedBoolErr) s [.getSchema]

/-- Result of a spec-modelled job-lifecycle call: the requeue signal, the
error, the store after the call and the calls performed. -/
structure CallRes where
  requeue : Bool
  err : Option RError
  store : Store
  tr : Trace
deriving DecidableEq

/-- Modelled from the spec: `glance.EnsureJob` (repository `pkg/` code not
under `src/`), the Job Lifecycle Manager's `ensureJobRun` (§4.4): get the
live job; if no live job exists, create it and report `requeue=true`; if a
live job exists and has failed, surface a distinct loud error; if it has not
reached terminal success, report `requeue=true`; once it has completed
successfully, report `requeue=false`. -/
def EnsureJob (f : Faults) (s : Store) : CallRes :=
  if f .getJob then
    ⟨true, some (.storeErr .getJob), s, [.getJob]⟩
  else
    match s.job with
    | none =>
      if f .createJob then
        ⟨true, some (.storeErr .createJob), s, [.getJob, .createJob]⟩
      else
        ⟨true, none, { s with job := some ⟨false, false⟩ }, [.getJob, .createJob]⟩
    | some j =>
      if j.failed then
        ⟨true, some .jobFailedErr, s, [.getJob]⟩
      else if j.succeeded then
        ⟨false, none, s, [.getJob]⟩
      else
        ⟨true, none, s, [.getJob]⟩

/-- Modelled from the spec: `glance.DeleteJob` (repository `pkg/` code not
under `src/`), the Job Lifecycle Manager's `deleteJob` (§4.4), reclaiming the
transient job object: get the live job; when absent there is nothing to do;
when present delete it and report that a deletion happened. -/
def DeleteJob (f : Faults) (s : Store) : CallRes :=
  if f .getJob then
    ⟨false, some (.storeErr .getJob), s, [.getJob]⟩
  else
    match s.job with
    | none => ⟨false, none, s, [.getJob]⟩
    | some _ =>
      if f .deleteJob then
        ⟨false, some (.storeErr .deleteJob), s, [.getJob, .deleteJob]⟩
      else
        ⟨true, none, { s with job := none }, [.getJob, .deleteJob]⟩

/-- Result of a status setter: the (possibly mutated) in-memory instance, the
store, the calls performed and the error. -/
structure SetRes where
  api : GlanceAPI
  store : Store
  tr : Trace
  err : Option RError
deriving DecidableEq

/-- Lines 244–253, `setDbSyncHash`: when the hash differs from the one in
Status, mutate the in-memory instance first and then issue the
status-subresource update (so on a store error the in-memory instance keeps
the new hash but the store is unchanged); when equal, do nothing. -/
def setDbSyncHash (f : Faults) (api : GlanceAPI) (s : Store) (hashStr : String) : SetRes :=
  if hashStr ≠ api.status.dbSyncHash then
    let api' : GlanceAPI := { api with status := { api.status with dbSyncHash := hashStr } }
    if f .statusUpdateDbSync then
      ⟨api', s, [.statusUpdateDbSync], some (.storeErr .statusUpdateDbSync)⟩
    else
      ⟨api', { s with api := some api' }, [.statusUpdateDbSync], none⟩
  else
    ⟨api, s, [], none⟩

/-- Lines 255–265, `setDeploymentHash`: same shape as `setDbSyncHash` for the
`DeploymentHash` status field. -/
def setDeploymentHash (f : Faults) (api : GlanceAPI) (s : Store) (hashStr : String) : SetRes :=
  if hashStr ≠ api.status.deploymentHash then
    let api' : GlanceAPI := { api with status := { api.status with deploymentHash := hashStr } }
    if f .statusUpdateDeployment then
      ⟨api', s, [.statusUpdateDeployment], some (.storeErr .statusUpdateDeployment)⟩
    else
      ⟨api', { s with api := some api' }, [.statusUpdateDeployment], none⟩
  else
    ⟨api, s, [], none⟩

/-- Lines 171–179, the tail of the job phase: record the DB-sync hash (a
no-op when already recorded), aborting on a status-update error, then call
`DeleteJob`, aborting on its error; the requeue value `DeleteJob` returns is
assigned but never used by the Go code, so control always continues to the
deployment phase. -/
def jobTail (f : Faults) (i : GlanceAPI) (s : Store) (pre : Trace) (h : String) :
    Step GlanceAPI :=
  match setDbSyncHash f i s h with
  | ⟨_, s1, tr1, some e⟩ => .done ⟨none⟩ (some e) s1 (pre ++ tr1)
  | ⟨i', s1, tr1, none⟩ =>
    match DeleteJob f s1 with
    | ⟨_, some e, s2, tr2⟩ => .done ⟨none⟩ (some e) s2 (pre ++ tr1 ++ tr2)
    | ⟨_, none, s2, tr2⟩ => .next i' s2 (pre ++ tr1 ++ tr2)

/-- Lines 153–179: job-lifecycle phase.  Compute the DB-sync job's
fingerprint; when `Status.DbSyncHash` differs, run `EnsureJob`, aborting on
its error and returning `RequeueAfter: 5s` (nil error) while the job is still
being created or running; then (also when the fingerprint was already
recorded, skipping `EnsureJob` entirely) run the tail: record the hash and
delete the job. -/
def jobPhase (f : Faults) (i : GlanceAPI) (s : Store) : Step GlanceAPI :=
  let dbSyncHash := objectHash (dbSyncJobDesc i)
  if i.status.dbSyncHash ≠ dbSyncHash then
    match EnsureJob f s with
    | ⟨_, some e, s1, tr1⟩ => .done ⟨none⟩ (some e) s1 tr1
    | ⟨requeue, none, s1, tr1⟩ =>
      if requeue then
        .done ⟨some 5⟩ none s1 tr1
      else
        jobTail f i s1 tr1 dbSyncHash
  else
    jobTail f i s [] dbSyncHash

/-- Lines 181–229: deployment phase.  Recompute the config-map fingerprint
and the desired deployment (both pure functions of the instance's Spec).
Get; on NotFound create and return `RequeueAfter: 10s` (a fresh deployment
has no ready replicas); on any other get error return it.  When found and
`Status.DeploymentHash` differs from the desired fingerprint, update the live
deployment's spec, then record the hash, and return `RequeueAfter: 10s`; when
the hash matches and the observed ready replicas equal `Spec.Replicas`,
continue (terminal); otherwise return `RequeueAfter: 5s`. -/
def deploymentPhase (f : Faults) (i : GlanceAPI) (s : Store) : Step Unit :=
  let configMapHash := objectHash (configMapData i)
  let deployment := deploymentDesc i configMapHash
  let deploymentHash := deploymentObjectHash deployment
  if f .getDeployment then
    .done ⟨none⟩ (some (.storeErr .getDeployment)) s [.getDeployment]
  else
    match s.deployment with
    | none =>
      if f .createDeployment then
        .done ⟨none⟩ (some (.storeErr .createDeployment)) s [.getDeployment, .createDeployment]
      else
        .done ⟨some 10⟩ none { s with deployment := some ⟨deployment, 0⟩ }
          [.getDeployment, .createDeployment]
    | some d =>
      if i.status.deploymentHash ≠ deploymentHash then
        if f .updateDeployment then
          .done ⟨none⟩ (some (.storeErr .updateDeployment)) s [.getDeployment, .updateDeployment]
        else
          match setDeploymentHash f i { s with deployment := some { d with spec := deployment } }
              deploymentHash with
          | ⟨_, s2, tr2, some e⟩ =>
            .done ⟨none⟩ (some e) s2 ([.getDeployment, .updateDeployment] ++ tr2)
          | ⟨_, s2, tr2, none⟩ =>
            .done ⟨some 10⟩ none s2 ([.getDeployment, .updateDeployment] ++ tr2)
      else if d.readyReplicas = i.spec.replicas then
        .next () s [.getDeployment]
      else
        .done ⟨some 5⟩ none s [.getDeployment]

/-- The whole body of `Reconcile` as the sequence of its phases. -/
def passChain (f : Faults) (s : Store) : Step Unit :=
  (fetchInstance f s).andThen fun i s =>
    (pvcPhase f s).andThen fun _ s =>
      (servicePhase f s).andThen fun _ s =>
        (configMapPhase f i s).andThen fun _ s =>
          (schemaPhase f s).andThen fun _ s =>
            (jobPhase f i s).andThen fun i' s =>
              deploymentPhase f i' s

/-- One reconciliation pass (`Reconcile`, lines 54–232): run the phase chain
and, when control falls off the end, return the zero result with nil error. -/
def reconcile (f : Faults) (s : Store) : Outcome :=
  (passChain f s).finish

/-! Concrete instances and stores used by the counter-scenarios and
witnesses below. -/

/-- Instance with no status hashes recorded. -/
def apiC1 : GlanceAPI := ⟨⟨3, "cfg"⟩, ⟨"", ""⟩⟩

/-- Store in which PVC, Service and a matching ConfigMap exist but the schema
object does not, and no job has ever run. -/
def sC1 : Store := ⟨some apiC1, true, true, some (configMapData apiC1), none, none, none⟩

/-- Instance for the fresh-Specification scenario. -/
def apiC8 : GlanceAPI := ⟨⟨3, "cfg"⟩, ⟨"", ""⟩⟩

/-- Fresh store: the Specification exists, no managed resource does. -/
def sC8 : Store := ⟨some apiC8, false, false, none, none, none, none⟩

/-- Instance whose Status already records the DB-sync job's fingerprint. -/
def apiC2 : GlanceAPI := ⟨⟨3, "cfg"⟩, ⟨"hash(glance-db-sync:cfg)", ""⟩⟩

/-- Converged-but-for-deployment store for the skip-law counter-scenario:
the job has already run, succeeded and been deleted. -/
def sC2 : Store :=
  ⟨some apiC2, true, true, some (configMapData apiC2), some .completed, none, none⟩

/-- Instance for the error-propagation counter-scenario. -/
def apiC4 : GlanceAPI := ⟨⟨3, "cfg"⟩, ⟨"", ""⟩⟩

/-- Store for the error-propagation counter-scenario: a live ConfigMap exists. -/
def sC4 : Store := ⟨some apiC4, true, true, some (configMapData apiC4), none, none, none⟩

/-- Fault assignment injecting a non-NotFound error into the ConfigMap get. -/
def faultsC4 : Faults := fun k => k == OpKind.getConfigMap

/-- Instance with the job fingerprint recorded but no deployment fingerprint. -/
def apiC6 : GlanceAPI := ⟨⟨2, "cfg"⟩, ⟨"hash(glance-db-sync:cfg)", ""⟩⟩

/-- Live deployment whose spec equals the desired description and whose ready
replicas equal the desired count. -/
def depC6 : DeploymentObj := ⟨deploymentDesc apiC6 (objectHash (configMapData apiC6)), 2⟩

/-- Store in which every managed resource exists and matches, the gate is
completed, the job fingerprint is recorded and replicas are ready — but
`Status.DeploymentHash` was never written. -/
def sC6 : Store :=
  ⟨some apiC6, true, true, some (configMapData apiC6), some .completed, none, some depC6⟩

/-- Fully converged instance: both fingerprints recorded. -/
def apiC6w : GlanceAPI :=
  ⟨⟨2, "cfg"⟩, ⟨"hash(glance-db-sync:cfg)", "hash(2/cfg/hash(glance-api-config:cfg))"⟩⟩

/-- Matching live deployment for the fully converged store. -/
def depC6w : DeploymentObj := ⟨⟨2, "cfg", "hash(glance-api-config:cfg)"⟩, 2⟩

/-- Fully converged store: the terminal success state. -/
def sC6w : Store :=
  ⟨some apiC6w, true, true, some (configMapData apiC6w), some .completed, none, some depC6w⟩

/-- Instance for the idempotence counter-scenario. -/
def apiC3 : GlanceAPI := ⟨⟨3, "cfg"⟩, ⟨"", ""⟩⟩

/-- Fresh store for the idempotence counter-scenario. -/
def sC3 : Store := ⟨some apiC3, false, false, none, none, none, none⟩

/-- Fully converged instance for the idempotence witness. -/
def apiC3w : GlanceAPI :=
  ⟨⟨2, "cfg"⟩, ⟨"hash(glance-db-sync:cfg)", "hash(2/cfg/hash(glance-api-config:cfg))"⟩⟩

/-- Fully converged store for the idempotence witness. -/
def sC3w : Store :=
  ⟨some apiC3w, true, true, some (configMapData apiC3w), some .completed, none,
    some ⟨⟨2, "cfg", "hash(glance-api-config:cfg)"⟩, 2⟩⟩

/-- Instance for the drift-detection witness: no hashes recorded. -/
def apiC5 : GlanceAPI := ⟨⟨3, "cfg"⟩, ⟨"", ""⟩⟩

/-- Store with a live ConfigMap whose Data differs from the desired Data. -/
def sC5 : Store := ⟨some apiC5, true, true, some "stale-data", none, none, none⟩

/-- Instance for the hash-ordering witness: no hashes recorded yet. -/
def apiC7 : GlanceAPI := ⟨⟨1, "c"⟩, ⟨"", ""⟩⟩

/-- Store for the hash-ordering witness: the gate is completed, the DB-sync
job has reached terminal success, and a live deployment exists. -/
def sC7 : Store :=
  ⟨some apiC7, true, true, some (configMapData apiC7), some .completed,
    some ⟨true, false⟩, some ⟨⟨0, "", ""⟩, 0⟩⟩

/-- Store holding no GlanceAPI object at the reconciled identity. -/
def sC9 : Store := ⟨none, false, false, none, none, none, none⟩

/-- Instance for the status-setter witness. -/
def apiC10 : GlanceAPI := ⟨⟨1, "c"⟩, ⟨"x", "y"⟩⟩

/-- Arbitrary store for the status-setter witness. -/
def sC10 : Store := ⟨some apiC10, true, true, none, none, none, none⟩

/-! Basic lemmas about the step combinators. -/

theorem Step.withPre_done {α : Type} (pre : Trace) (r : RResult) (e : Option RError)
    (s : Store) (tr : Trace) :
    (@Step.done α r e s tr).withPre pre = .done r e s (pre ++ tr) := rfl

theorem Step.withPre_next {α : Type} (pre : Trace) (a : α) (s : Store) (tr : Trace) :
    (Step.next a s tr).withPre pre = .next a s (pre ++ tr) := rfl

theorem Step.andThen_done {α β : Type} (r : RResult) (e : Option RError) (s : Store)
    (tr : Trace) (k : α → Store → Step β) :
    (@Step.done α r e s tr).andThen k = .done r e s tr := rfl

theorem Step.next_andThen {α β : Type} (a : α) (s : Store) (tr : Trace)
    (k : α → Store → Step β) :
    (Step.next a s tr).andThen k = (k a s).withPre tr := rfl

theorem Step.finish_done {α : Type} (r : RResult) (e : Option RError) (s : Store)
    (tr : Trace) : (@Step.done α r e s tr).finish = ⟨r, e, s, tr⟩ := rfl

theorem Step.finish_next {α : Type} (a : α) (s : Store) (tr : Trace) :
    (Step.next a s tr).finish = ⟨⟨none⟩, none, s, tr⟩ := rfl

theorem Step.trace_done {α : Type} (r : RResult) (e : Option RError) (s : Store)
    (tr : Trace) : (@Step.done α r e s tr).trace = tr := rfl

theorem Step.trace_next {α : Type} (a : α) (s : Store) (tr : Trace) :
    (Step.next a s tr).trace = tr := rfl

theorem finish_trace {α : Type} (st : Step α) : (Step.finish st).trace = st.trace := by
  cases st <;> rfl

theorem finish_store {α : Type} (st : Step α) : (Step.finish st).store = st.store := by
  cases st <;> rfl

theorem mem_withPre {α : Type} {x : OpKind} {pre : Trace} {st : Step α} :
    x ∈ (st.withPre pre).trace ↔ x ∈ pre ∨ x ∈ st.trace := by
  cases st <;> simp [Step.withPre, Step.trace]

theorem trace_next_andThen {α β : Type} (a : α) (s : Store) (tr : Trace)
    (k : α → Store → Step β) :
    ((Step.next a s tr).andThen k).trace = tr ++ (k a s).trace := by
  rw [Step.next_andThen]
  cases k a s <;> simp [Step.withPre, Step.trace]

theorem mem_andThen_strong {α β : Type} {x : OpKind} {st : Step α}
    {k : α → Store → Step β} (hx : x ∈ (st.andThen k).trace) :
    x ∈ st.trace ∨ ∃ a s tr, st = Step.next a s tr ∧ x ∈ (k a s).trace := by
  cases st with
  | done r e s tr => exact Or.inl hx
  | next a s tr =>
    rw [Step.next_andThen] at hx
    rcases mem_withPre.mp hx with h | h
    · exact Or.inl h
    · exact Or.inr ⟨a, s, tr, rfl, h⟩

/-! Evaluation lemmas: under `noFaults`, each phase reduces to a concrete
step once the relevant store fields are known. -/

theorem fetchInstance_eval (i : GlanceAPI) (s : Store) (h : s.api = some i) :
    fetchInstance noFaults s = .next i s [OpKind.getInstance] := by
  simp [fetchInstance, noFaults, h]

theorem pvcPhase_eval (s : Store) (h : s.pvc = true) :
    pvcPhase noFaults s = .next () s [OpKind.getPvc] := by
  simp [pvcPhase, noFaults, h]

theorem servicePhase_eval (s : Store) (h : s.service = true) :
    servicePhase noFaults s = .next () s [OpKind.getService] := by
  simp [servicePhase, noFaults, h]

theorem configMapPhase_eval (i : GlanceAPI) (s : Store)
    (h : s.configMap = some (configMapData i)) :
    configMapPhase noFaults i s = .next () s [OpKind.getConfigMap] := by
  simp [configMapPhase, noFaults, h]

theorem configMapPhase_drift (i : GlanceAPI) (s : Store) (dat : String)
    (h : s.configMap = some dat) (hne : configMapData i ≠ dat) :
    configMapPhase noFaults i s =
      .done ⟨some 5⟩ none { s with configMap := some (configMapData i) }
        [OpKind.getConfigMap, OpKind.updateConfigMap] := by
  simp [configMapPhase, noFaults, h, hne]

theorem schemaPhase_eval_completed (s : Store)
    (h : s.schema = some SchemaStatus.completed) :
    schemaPhase noFaults s = .next () s [OpKind.getSchema] := by
  simp [schemaPhase, noFaults, h]

theorem schemaPhase_eval_waiting (s : Store)
    (h : s.schema = some SchemaStatus.notCompleted) :
    schemaPhase noFaults s = .done ⟨some 5⟩ none s [OpKind.getSchema] := by
  simp [schemaPhase, noFaults, h]

theorem jobPhase_skip_none (i : GlanceAPI) (s : Store)
    (h : i.status.dbSyncHash = objectHash (dbSyncJobDesc i)) (hj : s.job = none) :
    jobPhase noFaults i s = .next i s [OpKind.getJob] := by
  simp [jobPhase, h, jobTail, setDbSyncHash, DeleteJob, noFaults, hj]

theorem jobPhase_skip_some (i : GlanceAPI) (s : Store) (j : JobObj)
    (h : i.status.dbSyncHash = objectHash (dbSyncJobDesc i)) (hj : s.job = some j) :
    jobPhase noFaults i s =
      .next i { s with job := none } [OpKind.getJob, OpKind.deleteJob] := by
  simp [jobPhase, h, jobTail, setDbSyncHash, DeleteJob, noFaults, hj]

theorem deploymentPhase_eval_ready (i : GlanceAPI) (s : Store) (d : DeploymentObj)
    (hd : s.deployment = some d)
    (hh : i.status.deploymentHash =
      deploymentObjectHash (deploymentDesc i (objectHash (configMapData i))))
    (hr : d.readyReplicas = i.spec.replicas) :
    deploymentPhase noFaults i s = .next () s [OpKind.getDeployment] := by
  simp [deploymentPhase, noFaults, hd, hh, hr]

/-! Trace-bound lemmas: the call kinds each phase can ever emit, for any
fault assignment and any store. -/

theorem trace_fetchInstance (f : Faults) (s : Store) :
    (fetchInstance f s).trace = [OpKind.getInstance] := by
  unfold fetchInstance
  split
  · rfl
  · split <;> rfl

theorem trace_pvcPhase (f : Faults) (s : Store) (x : OpKind)
    (hx : x ∈ (pvcPhase f s).trace) : x = OpKind.getPvc ∨ x = OpKind.createPvc := by
  simp only [pvcPhase] at hx
  repeat' split at hx
  all_goals simp [Step.trace] at hx <;> tauto

theorem trace_servicePhase (f : Faults) (s : Store) (x : OpKind)
    (hx : x ∈ (servicePhase f s).trace) :
    x = OpKind.getService ∨ x = OpKind.createService := by
  simp only [servicePhase] at hx
  repeat' split at hx
  all_goals simp [Step.trace] at hx <;> tauto

theorem trace_configMapPhase (f : Faults) (i : GlanceAPI) (s : Store) (x : OpKind)
    (hx : x ∈ (configMapPhase f i s).trace) :
    x = OpKind.getConfigMap ∨ x = OpKind.createConfigMap ∨ x = OpKind.updateConfigMap := by
  simp only [configMapPhase] at hx
  repeat' split at hx
  all_goals simp [Step.trace] at hx <;> tauto

theorem trace_schemaPhase (f : Faults) (s : Store) (x : OpKind)
    (hx : x ∈ (schemaPhase f s).trace) :
    x = OpKind.getSchema ∨ x = OpKind.createSchema := by
  simp only [schemaPhase] at hx
  repeat' split at hx
  all_goals simp [Step.trace] at hx <;> tauto

theorem tr_EnsureJob (f : Faults) (s : Store) (x : OpKind)
    (hx : x ∈ (EnsureJob f s).tr) : x = OpKind.getJob ∨ x = OpKind.createJob := by
  simp only [EnsureJob] at hx
  repeat' split at hx
  all_goals simp at hx <;> tauto

theorem tr_DeleteJob (f : Faults) (s : Store) (x : OpKind)
    (hx : x ∈ (DeleteJob f s).tr) : x = OpKind.getJob ∨ x = OpKind.deleteJob := by
  simp only [DeleteJob] at hx
  repeat' split at hx
  all_goals simp at hx <;> tauto

theorem tr_setDbSyncHash (f : Faults) (api : GlanceAPI) (s : Store) (h : String)
    (x : OpKind) (hx : x ∈ (setDbSyncHash f api s h).tr) :
    x = OpKind.statusUpdateDbSync := by
  simp only [setDbSyncHash] at hx
  repeat' split at hx
  all_goals simp at hx <;> tauto

theorem tr_setDeploymentHash (f : Faults) (api : GlanceAPI) (s : Store) (h : String)
    (x : OpKind) (hx : x ∈ (setDeploymentHash f api s h).tr) :
    x = OpKind.statusUpdateDeployment := by
  simp only [setDeploymentHash] at hx
  repeat' split at hx
  all_goals simp at hx <;> tauto

theorem trace_jobTail (f : Faults) (i : GlanceAPI) (s : Store) (pre : Trace)
    (h : String) (x : OpKind) (hx : x ∈ (jobTail f i s pre h).trace) :
    x ∈ pre ∨ x = OpKind.statusUpdateDbSync ∨ x = OpKind.getJob ∨ x = OpKind.deleteJob := by
  rcases hset : setDbSyncHash f i s h with ⟨i1, s1, tr1, e1⟩
  have htr1 : ∀ y ∈ tr1, y = OpKind.statusUpdateDbSync := fun y hy =>
    tr_setDbSyncHash f i s h y (by rw [hset]; exact hy)
  cases e1 with
  | some e =>
    simp only [jobTail, hset, Step.trace] at hx
    rcases List.mem_append.mp hx with hx | hx
    · exact Or.inl hx
    · exact Or.inr (Or.inl (htr1 x hx))
  | none =>
    rcases hdel : DeleteJob f s1 with ⟨rq2, e2, s2, tr2⟩
    have htr2 : ∀ y ∈ tr2, y = OpKind.getJob ∨ y = OpKind.deleteJob := fun y hy =>
      tr_DeleteJob f s1 y (by rw [hdel]; exact hy)
    cases e2 with
    | some e =>
      simp only [jobTail, hset, hdel, Step.trace] at hx
      rcases List.mem_append.mp hx with hx | hx
      · rcases List.mem_append.mp hx with hx | hx
        · exact Or.inl hx
        · exact Or.inr (Or.inl (htr1 x hx))
      · rcases htr2 x hx with h' | h' <;> simp [h']
    | none =>
      simp only [jobTail, hset, hdel, Step.trace] at hx
      rcases List.mem_append.mp hx with hx | hx
      · rcases List.mem_append.mp hx with hx | hx
        · exact Or.inl hx
        · exact Or.inr (Or.inl (htr1 x hx))
      · rcases htr2 x hx with h' | h' <;> simp [h']

theorem trace_jobPhase (f : Faults) (i : GlanceAPI) (s : Store) (x : OpKind)
    (hx : x ∈ (jobPhase f i s).trace) :
    x = OpKind.getJob ∨ x = OpKind.createJob ∨ x = OpKind.deleteJob ∨
      x = OpKind.statusUpdateDbSync := by
  simp only [jobPhase] at hx
  by_cases hcond : i.status.dbSyncHash = objectHash (dbSyncJobDesc i)
  · rw [if_neg (fun hne => hne hcond)] at hx
    rcases trace_jobTail f i s [] _ x hx with h' | h' | h' | h'
    · simp at h'
    all_goals simp [h']
  · rcases hE : EnsureJob f s with ⟨rq, e, s1, tr1⟩
    have htr1 : ∀ y ∈ tr1, y = OpKind.getJob ∨ y = OpKind.createJob := fun y hy =>
      tr_EnsureJob f s y (by rw [hE]; exact hy)
    rw [if_pos hcond] at hx
    cases e with
    | some e =>
      simp only [hE, Step.trace] at hx
      rcases htr1 x hx with h' | h' <;> simp [h']
    | none =>
      simp only [hE] at hx
      by_cases hrq : rq = true
      · rw [if_pos hrq] at hx
        simp only [Step.trace] at hx
        rcases htr1 x hx with h' | h' <;> simp [h']
      · rw [if_neg hrq] at hx
        rcases trace_jobTail f i s1 tr1 _ x hx with h' | h' | h' | h'
        · rcases htr1 x h' with h'' | h'' <;> simp [h'']
        all_goals simp [h']

theorem trace_deploymentPhase (f : Faults) (i : GlanceAPI) (s : Store) (x : OpKind)
    (hx : x ∈ (deploymentPhase f i s).trace) :
    x = OpKind.getDeployment ∨ x = OpKind.createDeployment ∨
      x = OpKind.updateDeployment ∨ x = OpKind.statusUpdateDeployment := by
  simp only [deploymentPhase] at hx
  by_cases h1 : f OpKind.getDeployment = true
  · rw [if_pos h1] at hx
    simp [Step.trace] at hx
    simp [hx]
  · rw [if_neg h1] at hx
    cases hd : s.deployment with
    | none =>
      simp only [hd] at hx
      by_cases h2 : f OpKind.createDeployment = true
      · rw [if_pos h2] at hx
        simp [Step.trace] at hx
        rcases hx with hx | hx <;> simp [hx]
      · rw [if_neg h2] at hx
        simp [Step.trace] at hx
        rcases hx with hx | hx <;> simp [hx]
    | some d =>
      simp only [hd] at hx
      by_cases h3 : i.status.deploymentHash =
          deploymentObjectHash (deploymentDesc i (objectHash (configMapData i)))
      · rw [if_neg (fun hne => hne h3)] at hx
        by_cases h5 : d.readyReplicas = i.spec.replicas
        · rw [if_pos h5] at hx
          simp [Step.trace] at hx
          simp [hx]
        · rw [if_neg h5] at hx
          simp [Step.trace] at hx
          simp [hx]
      · rw [if_pos h3] at hx
        by_cases h4 : f OpKind.updateDeployment = true
        · rw [if_pos h4] at hx
          simp [Step.trace] at hx
          rcases hx with hx | hx <;> simp [hx]
        · rw [if_neg h4] at hx
          rcases hset : setDeploymentHash f i { s with deployment := some { d with spec := deploymentDesc i (objectHash (configMapData i)) } } (deploymentObjectHash (deploymentDesc i (objectHash (configMapData i)))) with ⟨i2, s2, tr2, e2⟩
          have htr2 : ∀ y ∈ tr2, y = OpKind.statusUpdateDeployment := fun y hy =>
            tr_setDeploymentHash f i _ _ y (by rw [hset]; exact hy)
          cases e2 with
          | some e =>
            simp only [hset, Step.trace] at hx
            rcases List.mem_append.mp hx with hx | hx
            · simp at hx; rcases hx with hx | hx <;> simp [hx]
            · simp [htr2 x hx]
          | none =>
            simp only [hset, Step.trace] at hx
            rcases List.mem_append.mp hx with hx | hx
            · simp at hx; rcases hx with hx | hx <;> simp [hx]
            · simp [htr2 x hx]

theorem tail_ops (f : Faults) (i : GlanceAPI) (s : Store) (x : OpKind)
    (hx : x ∈ ((schemaPhase f s).andThen fun _ s =>
      (jobPhase f i s).andThen fun i' s => deploymentPhase f i' s).trace) :
    x = OpKind.getSchema ∨ x = OpKind.createSchema ∨ x = OpKind.getJob ∨
      x = OpKind.createJob ∨ x = OpKind.deleteJob ∨ x = OpKind.statusUpdateDbSync ∨
      x = OpKind.getDeployment ∨ x = OpKind.createDeployment ∨
      x = OpKind.updateDeployment ∨ x = OpKind.statusUpdateDeployment := by
  rcases mem_andThen_strong hx with h | ⟨a, s', tr', _, h⟩
  · rcases trace_schemaPhase f s x h with h | h <;> simp [h]
  · rcases mem_andThen_strong h with h | ⟨i', s'', tr'', _, h⟩
    · rcases trace_jobPhase f i s' x h with h | h | h | h <;> simp [h]
    · rcases trace_deploymentPhase f i' s'' x h with h | h | h | h <;> simp [h]

/-- C9: if fetching the Specification itself returns NotFound, the pass
returns immediately with no error and no requeue signal, the store is
untouched, and the only call performed is that one get. -/
theorem c9_instance_not_found (f : Faults) (s : Store)
    (hf : f OpKind.getInstance = false) (h : s.api = none) :
    reconcile f s = ⟨⟨none⟩, none, s, [OpKind.getInstance]⟩ := by
  simp [reconcile, passChain, fetchInstance, hf, h, Step.andThen_done, Step.finish]

/-- Witness for C9 at the concrete store holding no GlanceAPI object. -/
theorem c9_instance_not_found_witness :
    reconcile noFaults sC9 = ⟨⟨none⟩, none, sC9, [OpKind.getInstance]⟩ :=
  c9_instance_not_found noFaults sC9 rfl rfl

/-- C10: when the hash handed to `setDbSyncHash` (resp. `setDeploymentHash`)
equals the one already stored in Status, the setter performs no store call,
leaves everything unchanged and returns no error; and a status write is
issued only when the new hash differs from the stored one. -/
theorem c10_status_setters_frame (f : Faults) (api : GlanceAPI) (s : Store) (h : String) :
    (h = api.status.dbSyncHash → setDbSyncHash f api s h = ⟨api, s, [], none⟩) ∧
    (h = api.status.deploymentHash → setDeploymentHash f api s h = ⟨api, s, [], none⟩) ∧
    (OpKind.statusUpdateDbSync ∈ (setDbSyncHash f api s h).tr →
      h ≠ api.status.dbSyncHash) ∧
    (OpKind.statusUpdateDeployment ∈ (setDeploymentHash f api s h).tr →
      h ≠ api.status.deploymentHash) := by
  refine ⟨fun hh => by simp [setDbSyncHash, hh],
          fun hh => by simp [setDeploymentHash, hh],
          fun hmem => ?_, fun hmem => ?_⟩
  · by_contra hh
    simp [setDbSyncHash, hh] at hmem
  · by_contra hh
    simp [setDeploymentHash, hh] at hmem

/-- Witness for C10: the equal-hash no-op, and the issued-write-implies-
difference direction, each discharged at a concrete input. -/
theorem c10_status_setters_frame_witness :
    setDbSyncHash noFaults apiC10 sC10 "x" = ⟨apiC10, sC10, [], none⟩ ∧
    "z" ≠ apiC10.status.deploymentHash :=
  ⟨(c10_status_setters_frame noFaults apiC10 sC10 "x").1 rfl,
   (c10_status_setters_frame noFaults apiC10 sC10 "z").2.2.2 (by decide)⟩

/-- C1 (code bug): on the pass that creates the missing schema object the
orchestrator does not requeue; control falls through to the job phase and the
migration job is created in that same pass, before the dependency gate ever
reported ready.  At `sC1` the schema object is absent, yet the trace of one
pass contains `createSchema` immediately followed by the job phase's
`createJob`. -/
theorem c1_job_created_before_gate_ready :
    sC1.schema = none ∧
    (reconcile noFaults sC1).trace =
      [OpKind.getInstance, OpKind.getPvc, OpKind.getService, OpKind.getConfigMap,
       OpKind.getSchema, OpKind.createSchema, OpKind.getJob, OpKind.createJob] ∧
    (reconcile noFaults sC1).res.requeueAfter = some 5 ∧
    (reconcile noFaults sC1).err = none := by decide

/-- C8 (code bug): from a fresh Specification, the first pass creates the PVC
only and requeues after 5 units, the second creates the Service and requeues;
but the third pass creates the ConfigMap, the dependency object AND the
migration job, even though the gate never reported ready in that pass. -/
theorem c8_third_pass_creates_job_early :
    (reconcile noFaults sC8).trace = [OpKind.getInstance, OpKind.getPvc, OpKind.createPvc] ∧
    (reconcile noFaults sC8).res.requeueAfter = some 5 ∧
    (reconcile noFaults (reconcile noFaults sC8).store).trace =
      [OpKind.getInstance, OpKind.getPvc, OpKind.getService, OpKind.createService] ∧
    (reconcile noFaults (reconcile noFaults sC8).store).res.requeueAfter = some 5 ∧
    (reconcile noFaults (reconcile noFaults (reconcile noFaults sC8).store).store).trace =
      [OpKind.getInstance, OpKind.getPvc, OpKind.getService, OpKind.getConfigMap,
       OpKind.createConfigMap, OpKind.getSchema, OpKind.createSchema,
       OpKind.getJob, OpKind.createJob] ∧
    (reconcile noFaults (reconcile noFaults (reconcile noFaults sC8).store).store).res.requeueAfter
      = some 5 := by decide

/-- C4 (code bug): a non-NotFound error injected into the ConfigMap get is
not returned: the pass falls into the drift branch, issues an update, and
returns `RequeueAfter: 5s` with nil error — the get error is discarded
instead of aborting the pass. -/
theorem c4_configmap_get_error_swallowed :
    faultsC4 OpKind.getConfigMap = true ∧
    (reconcile faultsC4 sC4).err = none ∧
    (reconcile faultsC4 sC4).res.requeueAfter = some 5 ∧
    OpKind.updateConfigMap ∈ (reconcile faultsC4 sC4).trace := by decide

/-- C2 counterexample: at a store whose Status already records the job's
fingerprint, the job-lifecycle phase still performs a store call (the get
issued by `DeleteJob`, which `Reconcile` calls unconditionally), so it does
not perform zero calls against the object store. -/
theorem c2_skip_pass_touches_job_store :
    apiC2.status.dbSyncHash = objectHash (dbSyncJobDesc apiC2) ∧
    Step.trace (jobPhase noFaults apiC2 sC2) ≠ [] := by decide

theorem EnsureJob_success_inv (f : Faults) (s : Store) (s1 : Store) (tr1 : Trace)
    (hE : EnsureJob f s = ⟨false, none, s1, tr1⟩) :
    ∃ j, s.job = some j ∧ j.succeeded = true := by
  simp only [EnsureJob] at hE
  by_cases h1 : f OpKind.getJob = true
  · rw [if_pos h1] at hE
    simp at hE
  · rw [if_neg h1] at hE
    cases hj : s.job with
    | none =>
      simp only [hj] at hE
      by_cases h2 : f OpKind.createJob = true
      · rw [if_pos h2] at hE; simp at hE
      · rw [if_neg h2] at hE; simp at hE
    | some j =>
      simp only [hj] at hE
      by_cases h3 : j.failed = true
      · rw [if_pos h3] at hE; simp at hE
      · rw [if_neg h3] at hE
        by_cases h4 : j.succeeded = true
        · exact ⟨j, rfl, h4⟩
        · rw [if_neg h4] at hE; simp at hE

theorem jobTail_skip_no_statusUpdate (f : Faults) (i : GlanceAPI) (s : Store)
    (h : i.status.dbSyncHash = objectHash (dbSyncJobDesc i)) :
    OpKind.statusUpdateDbSync ∉ (jobTail f i s [] (objectHash (dbSyncJobDesc i))).trace := by
  intro hx
  have hset : setDbSyncHash f i s (objectHash (dbSyncJobDesc i)) = ⟨i, s, [], none⟩ := by
    simp [setDbSyncHash, h]
  simp only [jobTail, hset] at hx
  rcases hdel : DeleteJob f s with ⟨rq, e, s2, tr2⟩
  have htr2 : ∀ y ∈ tr2, y = OpKind.getJob ∨ y = OpKind.deleteJob := fun y hy =>
    tr_DeleteJob f s y (by rw [hdel]; exact hy)
  cases e with
  | some e =>
    simp only [hdel, Step.trace] at hx
    simp at hx
    rcases htr2 _ hx with h' | h' <;> exact absurd h' (by decide)
  | none =>
    simp only [hdel, Step.trace] at hx
    simp at hx
    rcases htr2 _ hx with h' | h' <;> exact absurd h' (by decide)

theorem jobPhase_statusUpdate (f : Faults) (i : GlanceAPI) (s : Store)
    (hx : OpKind.statusUpdateDbSync ∈ (jobPhase f i s).trace) :
    ∃ j, s.job = some j ∧ j.succeeded = true := by
  simp only [jobPhase] at hx
  by_cases hcond : i.status.dbSyncHash = objectHash (dbSyncJobDesc i)
  · rw [if_neg (fun hne => hne hcond)] at hx
    exact absurd hx (jobTail_skip_no_statusUpdate f i s hcond)
  · rw [if_pos hcond] at hx
    rcases hE : EnsureJob f s with ⟨rq, e, s1, tr1⟩
    have htr1 : ∀ y ∈ tr1, y = OpKind.getJob ∨ y = OpKind.createJob := fun y hy =>
      tr_EnsureJob f s y (by rw [hE]; exact hy)
    cases e with
    | some e =>
      simp only [hE, Step.trace] at hx
      rcases htr1 _ hx with h' | h' <;> exact absurd h' (by decide)
    | none =>
      simp only [hE] at hx
      by_cases hrq : rq = true
      · rw [if_pos hrq] at hx
        simp only [Step.trace] at hx
        rcases htr1 _ hx with h' | h' <;> exact absurd h' (by decide)
      · rw [if_neg hrq] at hx
        have hrq' : rq = false := by revert hrq; cases rq <;> simp
        subst hrq'
        exact EnsureJob_success_inv f s s1 tr1 hE

theorem setDeploymentHash_tr_write (f : Faults) (api : GlanceAPI) (s : Store) (h : String)
    (hne : h ≠ api.status.deploymentHash) :
    (setDeploymentHash f api s h).tr = [OpKind.statusUpdateDeployment] := by
  simp only [setDeploymentHash]
  rw [if_pos hne]
  by_cases hf : f OpKind.statusUpdateDeployment = true
  · rw [if_pos hf]
  · rw [if_neg hf]

theorem deploymentPhase_statusUpdate (f : Faults) (i : GlanceAPI) (s : Store)
    (hx : OpKind.statusUpdateDeployment ∈ (deploymentPhase f i s).trace) :
    f OpKind.updateDeployment = false ∧
    (deploymentPhase f i s).trace =
      [OpKind.getDeployment, OpKind.updateDeployment, OpKind.statusUpdateDeployment] := by
  simp only [deploymentPhase] at hx ⊢
  by_cases h1 : f OpKind.getDeployment = true
  · rw [if_pos h1] at hx
    simp [Step.trace] at hx
  · rw [if_neg h1] at hx ⊢
    cases hd : s.deployment with
    | none =>
      simp only [hd] at hx ⊢
      by_cases h2 : f OpKind.createDeployment = true
      · rw [if_pos h2] at hx
        simp [Step.trace] at hx
      · rw [if_neg h2] at hx
        simp [Step.trace] at hx
    | some d =>
      simp only [hd] at hx ⊢
      by_cases h3 : i.status.deploymentHash =
          deploymentObjectHash (deploymentDesc i (objectHash (configMapData i)))
      · rw [if_neg (fun hne => hne h3)] at hx
        by_cases h5 : d.readyReplicas = i.spec.replicas
        · rw [if_pos h5] at hx
          simp [Step.trace] at hx
        · rw [if_neg h5] at hx
          simp [Step.trace] at hx
      · rw [if_pos h3] at hx ⊢
        by_cases h4 : f OpKind.updateDeployment = true
        · rw [if_pos h4] at hx
          simp [Step.trace] at hx
        · rw [if_neg h4] at hx ⊢
          rcases hset : setDeploymentHash f i { s with deployment := some { d with spec := deploymentDesc i (objectHash (configMapData i)) } } (deploymentObjectHash (deploymentDesc i (objectHash (configMapData i)))) with ⟨i2, s2, tr2, e2⟩
          have htr2 : tr2 = [OpKind.statusUpdateDeployment] := by
            have hw := setDeploymentHash_tr_write f i
              { s with deployment := some { d with spec := deploymentDesc i (objectHash (configMapData i)) } }
              (deploymentObjectHash (deploymentDesc i (objectHash (configMapData i))))
              (fun he => h3 he.symm)
            rw [hset] at hw
            exact hw
          have hf4 : f OpKind.updateDeployment = false := by
            revert h4; cases f OpKind.updateDeployment <;> simp
          cases e2 with
          | some e =>
            simp only [hset, Step.trace]
            rw [htr2]
            exact ⟨hf4, rfl⟩
          | none =>
            simp only [hset, Step.trace]
            rw [htr2]
            exact ⟨hf4, rfl⟩

theorem fetchInstance_next_inv {f : Faults} {s : Store} {i : GlanceAPI} {s' : Store}
    {tr : Trace} (h : fetchInstance f s = .next i s' tr) :
    s' = s ∧ s.api = some i := by
  simp only [fetchInstance] at h
  by_cases h1 : f OpKind.getInstance = true
  · rw [if_pos h1] at h; exact Step.noConfusion h
  · rw [if_neg h1] at h
    cases hj : s.api with
    | none => simp only [hj] at h; exact Step.noConfusion h
    | some i0 =>
      simp only [hj] at h
      simp only [Step.next.injEq] at h
      exact ⟨h.2.1.symm, by rw [h.1]⟩

theorem pvcPhase_next_inv {f : Faults} {s : Store} {a : Unit} {s' : Store} {tr : Trace}
    (h : pvcPhase f s = .next a s' tr) : s' = s ∧ s.pvc = true := by
  simp only [pvcPhase] at h
  by_cases h1 : f OpKind.getPvc = true
  · rw [if_pos h1] at h; exact Step.noConfusion h
  · rw [if_neg h1] at h
    by_cases h2 : s.pvc = true
    · rw [if_pos h2] at h
      simp only [Step.next.injEq] at h
      exact ⟨h.2.1.symm, h2⟩
    · rw [if_neg h2] at h
      by_cases h3 : f OpKind.createPvc = true
      · rw [if_pos h3] at h; exact Step.noConfusion h
      · rw [if_neg h3] at h; exact Step.noConfusion h

theorem servicePhase_next_inv {f : Faults} {s : Store} {a : Unit} {s' : Store} {tr : Trace}
    (h : servicePhase f s = .next a s' tr) : s' = s ∧ s.service = true := by
  simp only [servicePhase] at h
  by_cases h1 : f OpKind.getService = true
  · rw [if_pos h1] at h; exact Step.noConfusion h
  · rw [if_neg h1] at h
    by_cases h2 : s.service = true
    · rw [if_pos h2] at h
      simp only [Step.next.injEq] at h
      exact ⟨h.2.1.symm, h2⟩
    · rw [if_neg h2] at h
      by_cases h3 : f OpKind.createService = true
      · rw [if_pos h3] at h; exact Step.noConfusion h
      · rw [if_neg h3] at h; exact Step.noConfusion h

theorem configMapPhase_next_job {f : Faults} {i : GlanceAPI} {s : Store} {a : Unit}
    {s' : Store} {tr : Trace} (h : configMapPhase f i s = .next a s' tr) :
    s'.job = s.job := by
  simp only [configMapPhase] at h
  by_cases h1 : f OpKind.getConfigMap = true
  · rw [if_pos h1] at h
    by_cases h2 : configMapData i ≠ ""
    · rw [if_pos h2] at h
      by_cases h3 : f OpKind.updateConfigMap = true
      · rw [if_pos h3] at h; exact Step.noConfusion h
      · rw [if_neg h3] at h; exact Step.noConfusion h
    · rw [if_neg h2] at h
      simp only [Step.next.injEq] at h
      rw [← h.2.1]
  · rw [if_neg h1] at h
    cases hc : s.configMap with
    | none =>
      simp only [hc] at h
      by_cases h2 : f OpKind.createConfigMap = true
      · rw [if_pos h2] at h; exact Step.noConfusion h
      · rw [if_neg h2] at h
        simp only [Step.next.injEq] at h
        rw [← h.2.1]
    | some dat =>
      simp only [hc] at h
      by_cases h2 : configMapData i ≠ dat
      · rw [if_pos h2] at h
        by_cases h3 : f OpKind.updateConfigMap = true
        · rw [if_pos h3] at h; exact Step.noConfusion h
        · rw [if_neg h3] at h; exact Step.noConfusion h
      · rw [if_neg h2] at h
        simp only [Step.next.injEq] at h
        rw [← h.2.1]

theorem schemaPhase_next_job {f : Faults} {s : Store} {a : Unit} {s' : Store} {tr : Trace}
    (h : schemaPhase f s = .next a s' tr) : s'.job = s.job := by
  simp only [schemaPhase] at h
  by_cases h1 : f OpKind.getSchema = true
  · rw [if_pos h1] at h; exact Step.noConfusion h
  · rw [if_neg h1] at h
    cases hs : s.schema with
    | none =>
      simp only [hs] at h
      by_cases h2 : f OpKind.createSchema = true
      · rw [if_pos h2] at h; exact Step.noConfusion h
      · rw [if_neg h2] at h
        simp only [Step.next.injEq] at h
        rw [← h.2.1]
    | some st =>
      simp only [hs] at h
      cases st with
      | completed =>
        simp only [Step.next.injEq] at h
        rw [← h.2.1]
      | notCompleted => exact Step.noConfusion h
      | malformed => exact Step.noConfusion h

theorem andThen_done_inv {α β : Type} {st : Step α} {k : α → Store → Step β}
    {r : RResult} {e : Option RError} {s' : Store} {tr : Trace}
    (h : st.andThen k = .done r e s' tr) :
    st = .done r e s' tr ∨
      ∃ a s0 tr0 tr', st = Step.next a s0 tr0 ∧ k a s0 = .done r e s' tr' ∧
        tr = tr0 ++ tr' := by
  cases st with
  | done r0 e0 s0 tr0 =>
    rw [Step.andThen_done] at h
    cases h
    exact Or.inl rfl
  | next a s0 tr0 =>
    right
    rw [Step.next_andThen] at h
    cases hk : k a s0 with
    | done r1 e1 s1 tr1 =>
      rw [hk, Step.withPre_done] at h
      cases h
      exact ⟨a, s0, tr0, tr1, rfl, hk, rfl⟩
    | next b s1 tr1 =>
      rw [hk, Step.withPre_next] at h
      exact Step.noConfusion h

theorem andThen_next_inv {α β : Type} {st : Step α} {k : α → Store → Step β}
    {b : β} {s' : Store} {tr : Trace} (h : st.andThen k = .next b s' tr) :
    ∃ a s0 tr0 tr', st = Step.next a s0 tr0 ∧ k a s0 = .next b s' tr' ∧
      tr = tr0 ++ tr' := by
  cases st with
  | done r0 e0 s0 tr0 =>
    rw [Step.andThen_done] at h
    exact Step.noConfusion h
  | next a s0 tr0 =>
    rw [Step.next_andThen] at h
    cases hk : k a s0 with
    | done r1 e1 s1 tr1 =>
      rw [hk, Step.withPre_done] at h
      exact Step.noConfusion h
    | next b1 s1 tr1 =>
      rw [hk, Step.withPre_next] at h
      cases h
      exact ⟨a, s0, tr0, tr1, rfl, hk, rfl⟩

theorem finish_quiet_inv {α : Type} {st : Step α}
    (hreq : st.finish.res.requeueAfter = none) (herr : st.finish.err = none) :
    (∃ s tr, st = Step.done ⟨none⟩ none s tr ∧ st.finish.store = s) ∨
      ∃ a s tr, st = Step.next a s tr ∧ st.finish.store = s := by
  cases st with
  | done r e s tr =>
    left
    have hr : r.requeueAfter = none := hreq
    have he : e = none := herr
    cases r with
    | mk ra =>
      have hra : ra = none := hr
      subst hra
      subst he
      exact ⟨s, tr, rfl, rfl⟩
  | next a s tr => exact Or.inr ⟨a, s, tr, rfl, rfl⟩

theorem fetchInstance_quiet_done (s s' : Store) (tr : Trace)
    (h : fetchInstance noFaults s = .done ⟨none⟩ none s' tr) :
    s.api = none ∧ s' = s := by
  simp only [fetchInstance, noFaults, Bool.false_eq_true, if_false] at h
  cases hj : s.api with
  | none =>
    simp only [hj] at h
    cases h
    exact ⟨rfl, rfl⟩
  | some i =>
    simp only [hj] at h
    exact Step.noConfusion h

theorem pvcPhase_no_quiet_done (s s' : Store) (tr : Trace)
    (h : pvcPhase noFaults s = .done ⟨none⟩ none s' tr) : False := by
  simp only [pvcPhase, noFaults, Bool.false_eq_true, if_false] at h
  by_cases h2 : s.pvc = true
  · rw [if_pos h2] at h
    exact Step.noConfusion h
  · rw [if_neg h2] at h
    simp at h

theorem servicePhase_no_quiet_done (s s' : Store) (tr : Trace)
    (h : servicePhase noFaults s = .done ⟨none⟩ none s' tr) : False := by
  simp only [servicePhase, noFaults, Bool.false_eq_true, if_false] at h
  by_cases h2 : s.service = true
  · rw [if_pos h2] at h
    exact Step.noConfusion h
  · rw [if_neg h2] at h
    simp at h

theorem configMapPhase_no_quiet_done (i : GlanceAPI) (s s' : Store) (tr : Trace)
    (h : configMapPhase noFaults i s = .done ⟨none⟩ none s' tr) : False := by
  simp only [configMapPhase, noFaults, Bool.false_eq_true, if_false] at h
  cases hc : s.configMap with
  | none =>
    simp only [hc] at h
    exact Step.noConfusion h
  | some dat =>
    simp only [hc] at h
    by_cases h2 : configMapData i ≠ dat
    · rw [if_pos h2] at h
      simp at h
    · rw [if_neg h2] at h
      exact Step.noConfusion h

theorem schemaPhase_no_quiet_done (s s' : Store) (tr : Trace)
    (h : schemaPhase noFaults s = .done ⟨none⟩ none s' tr) : False := by
  simp only [schemaPhase, noFaults, Bool.false_eq_true, if_false] at h
  cases hc : s.schema with
  | none =>
    simp only [hc] at h
    exact Step.noConfusion h
  | some st =>
    simp only [hc] at h
    cases st with
    | completed => exact Step.noConfusion h
    | notCompleted => simp at h
    | malformed => simp at h

theorem setDbSyncHash_skip (f : Faults) (api : GlanceAPI) (s : Store) (hs : String)
    (h : hs = api.status.dbSyncHash) : setDbSyncHash f api s hs = ⟨api, s, [], none⟩ := by
  simp [setDbSyncHash, h]

theorem setDbSyncHash_write (api : GlanceAPI) (s : Store) (hs : String)
    (hne : hs ≠ api.status.dbSyncHash) :
    setDbSyncHash noFaults api s hs =
      ⟨{ api with status := { api.status with dbSyncHash := hs } },
        { s with api := some { api with status := { api.status with dbSyncHash := hs } } },
        [OpKind.statusUpdateDbSync], none⟩ := by
  simp [setDbSyncHash, noFaults, hne]

theorem setDeploymentHash_noFaults_err (api : GlanceAPI) (s : Store) (hs : String) :
    (setDeploymentHash noFaults api s hs).err = none := by
  simp only [setDeploymentHash, noFaults, Bool.false_eq_true, if_false]
  by_cases hc : hs ≠ api.status.deploymentHash
  · rw [if_pos hc]
  · rw [if_neg hc]

theorem DeleteJob_eval_none (s : Store) (hj : s.job = none) :
    DeleteJob noFaults s = ⟨false, none, s, [OpKind.getJob]⟩ := by
  simp [DeleteJob, noFaults, hj]

theorem DeleteJob_eval_some (s : Store) (j : JobObj) (hj : s.job = some j) :
    DeleteJob noFaults s =
      ⟨true, none, { s with job := none }, [OpKind.getJob, OpKind.deleteJob]⟩ := by
  simp [DeleteJob, noFaults, hj]

theorem DeleteJob_noFaults_err (s : Store) : (DeleteJob noFaults s).err = none := by
  cases hj : s.job with
  | none => rw [DeleteJob_eval_none s hj]
  | some j => rw [DeleteJob_eval_some s j hj]

theorem jobTail_noFaults_next (i : GlanceAPI) (s : Store) (pre : Trace) (hs : String) :
    ∃ i' s' tr, jobTail noFaults i s pre hs = .next i' s' tr := by
  rcases hset : setDbSyncHash noFaults i s hs with ⟨i1, s1, tr1, e1⟩
  have he1 : e1 = none := by
    have hs1 : (setDbSyncHash noFaults i s hs).err = none := by
      simp only [setDbSyncHash, noFaults, Bool.false_eq_true, if_false]
      by_cases hc : hs ≠ i.status.dbSyncHash
      · rw [if_pos hc]
      · rw [if_neg hc]
    rw [hset] at hs1
    exact hs1
  subst he1
  rcases hdel : DeleteJob noFaults s1 with ⟨rq, e2, s2, tr2⟩
  have he2 : e2 = none := by
    have hd1 := DeleteJob_noFaults_err s1
    rw [hdel] at hd1
    exact hd1
  subst he2
  exact ⟨i1, s2, pre ++ tr1 ++ tr2, by simp only [jobTail, hset, hdel]⟩

theorem jobPhase_no_quiet_done (i : GlanceAPI) (s s' : Store) (tr : Trace)
    (h : jobPhase noFaults i s = .done ⟨none⟩ none s' tr) : False := by
  simp only [jobPhase] at h
  by_cases hcond : i.status.dbSyncHash = objectHash (dbSyncJobDesc i)
  · rw [if_neg (fun hne => hne hcond)] at h
    obtain ⟨i', s2, tr2, heq⟩ := jobTail_noFaults_next i s [] _
    rw [heq] at h
    exact Step.noConfusion h
  · rw [if_pos hcond] at h
    rcases hE : EnsureJob noFaults s with ⟨rq, e, s1, tr1⟩
    cases e with
    | some e0 =>
      simp only [hE] at h
      simp at h
    | none =>
      simp only [hE] at h
      by_cases hrq : rq = true
      · rw [if_pos hrq] at h
        simp at h
      · rw [if_neg hrq] at h
        obtain ⟨i', s2, tr2, heq⟩ := jobTail_noFaults_next i s1 tr1 _
        rw [heq] at h
        exact Step.noConfusion h

theorem deploymentPhase_no_quiet_done (i : GlanceAPI) (s s' : Store) (tr : Trace)
    (h : deploymentPhase noFaults i s = .done ⟨none⟩ none s' tr) : False := by
  simp only [deploymentPhase, noFaults, Bool.false_eq_true, if_false] at h
  cases hd : s.deployment with
  | none =>
    simp only [hd] at h
    simp at h
  | some d =>
    simp only [hd] at h
    by_cases h3 : i.status.deploymentHash =
        deploymentObjectHash (deploymentDesc i (objectHash (configMapData i)))
    · rw [if_neg (fun hne => hne h3)] at h
      by_cases h5 : d.readyReplicas = i.spec.replicas
      · rw [if_pos h5] at h
        exact Step.noConfusion h
      · rw [if_neg h5] at h
        simp at h
    · rw [if_pos h3] at h
      rcases hset : setDeploymentHash noFaults i { s with deployment := some { d with spec := deploymentDesc i (objectHash (configMapData i)) } } (deploymentObjectHash (deploymentDesc i (objectHash (configMapData i)))) with ⟨i2, s2, tr2, e2⟩
      have he2 : e2 = none := by
        have hs2 := setDeploymentHash_noFaults_err i
          { s with deployment := some { d with spec := deploymentDesc i (objectHash (configMapData i)) } }
          (deploymentObjectHash (deploymentDesc i (objectHash (configMapData i))))
        rw [hset] at hs2
        exact hs2
      subst he2
      simp only [hset] at h
      simp at h

theorem configMapData_congr {i i' : GlanceAPI} (h : i'.spec = i.spec) :
    configMapData i' = configMapData i := by
  simp [configMapData, h]

theorem dbSyncJobDesc_congr {i i' : GlanceAPI} (h : i'.spec = i.spec) :
    dbSyncJobDesc i' = dbSyncJobDesc i := by
  simp [dbSyncJobDesc, h]

theorem deploymentDesc_congr {i i' : GlanceAPI} (h : i'.spec = i.spec) (ch : String) :
    deploymentDesc i' ch = deploymentDesc i ch := by
  simp [deploymentDesc, h]

theorem configMapPhase_next_char {i : GlanceAPI} {s : Store} {a : Unit} {s' : Store}
    {tr : Trace} (h : configMapPhase noFaults i s = .next a s' tr) :
    s'.configMap = some (configMapData i) ∧ s'.api = s.api ∧ s'.pvc = s.pvc ∧
      s'.service = s.service ∧ s'.schema = s.schema ∧ s'.job = s.job ∧
      s'.deployment = s.deployment := by
  simp only [configMapPhase, noFaults, Bool.false_eq_true, if_false] at h
  cases hc : s.configMap with
  | none =>
    simp only [hc] at h
    simp only [Step.next.injEq] at h
    rw [← h.2.1]
    exact ⟨rfl, rfl, rfl, rfl, rfl, rfl, rfl⟩
  | some dat =>
    simp only [hc] at h
    by_cases h2 : configMapData i ≠ dat
    · rw [if_pos h2] at h
      exact Step.noConfusion h
    · rw [if_neg h2] at h
      simp only [Step.next.injEq] at h
      rw [← h.2.1]
      push_neg at h2
      rw [hc, ← h2]
      exact ⟨rfl, rfl, rfl, rfl, rfl, rfl, rfl⟩

theorem schemaPhase_next_char {s : Store} {a : Unit} {s' : Store} {tr : Trace}
    (h : schemaPhase noFaults s = .next a s' tr) :
    (s'.schema = some SchemaStatus.completed ∨
      s'.schema = some SchemaStatus.notCompleted) ∧ s'.api = s.api ∧ s'.pvc = s.pvc ∧
      s'.service = s.service ∧ s'.configMap = s.configMap ∧ s'.job = s.job ∧
      s'.deployment = s.deployment := by
  simp only [schemaPhase, noFaults, Bool.false_eq_true, if_false] at h
  cases hc : s.schema with
  | none =>
    simp only [hc] at h
    simp only [Step.next.injEq] at h
    rw [← h.2.1]
    exact ⟨Or.inr rfl, rfl, rfl, rfl, rfl, rfl, rfl⟩
  | some st =>
    simp only [hc] at h
    cases st with
    | completed =>
      simp only [Step.next.injEq] at h
      rw [← h.2.1]
      exact ⟨Or.inl hc, rfl, rfl, rfl, rfl, rfl, rfl⟩
    | notCompleted => exact Step.noConfusion h
    | malformed => exact Step.noConfusion h

theorem EnsureJob_success_store (f : Faults) (s s1 : Store) (tr1 : Trace)
    (hE : EnsureJob f s = ⟨false, none, s1, tr1⟩) : s1 = s := by
  simp only [EnsureJob] at hE
  by_cases h1 : f OpKind.getJob = true
  · rw [if_pos h1] at hE
    simp at hE
  · rw [if_neg h1] at hE
    cases hj : s.job with
    | none =>
      simp only [hj] at hE
      by_cases h2 : f OpKind.createJob = true
      · rw [if_pos h2] at hE
        simp at hE
      · rw [if_neg h2] at hE
        simp at hE
    | some j =>
      simp only [hj] at hE
      by_cases h3 : j.failed = true
      · rw [if_pos h3] at hE
        simp at hE
      · rw [if_neg h3] at hE
        by_cases h4 : j.succeeded = true
        · rw [if_pos h4] at hE
          simp only [CallRes.mk.injEq] at hE
          exact hE.2.2.1.symm
        · rw [if_neg h4] at hE
          simp at hE

theorem jobPhase_next_char {i : GlanceAPI} {s : Store} {i' : GlanceAPI} {s' : Store}
    {tr : Trace} (h : jobPhase noFaults i s = .next i' s' tr) (hsapi : s.api = some i) :
    s'.api = some i' ∧ s'.job = none ∧ i'.spec = i.spec ∧
      i'.status.dbSyncHash = objectHash (dbSyncJobDesc i) ∧
      i'.status.deploymentHash = i.status.deploymentHash ∧
      s'.pvc = s.pvc ∧ s'.service = s.service ∧ s'.configMap = s.configMap ∧
      s'.schema = s.schema ∧ s'.deployment = s.deployment := by
  by_cases hcond : i.status.dbSyncHash = objectHash (dbSyncJobDesc i)
  · cases hj : s.job with
    | none =>
      rw [jobPhase_skip_none i s hcond hj] at h
      simp only [Step.next.injEq] at h
      obtain ⟨hi, hs, htr⟩ := h
      subst hi
      rw [← hs]
      exact ⟨hsapi, hj, rfl, hcond, rfl, rfl, rfl, rfl, rfl, rfl⟩
    | some j =>
      rw [jobPhase_skip_some i s j hcond hj] at h
      simp only [Step.next.injEq] at h
      obtain ⟨hi, hs, htr⟩ := h
      subst hi
      rw [← hs]
      exact ⟨hsapi, rfl, rfl, hcond, rfl, rfl, rfl, rfl, rfl, rfl⟩
  · simp only [jobPhase] at h
    rw [if_pos hcond] at h
    rcases hE : EnsureJob noFaults s with ⟨rq, e, s1, tr1⟩
    cases e with
    | some e0 =>
      simp only [hE] at h
      exact Step.noConfusion h
    | none =>
      simp only [hE] at h
      by_cases hrq : rq = true
      · rw [if_pos hrq] at h
        exact Step.noConfusion h
      · rw [if_neg hrq] at h
        have hrq' : rq = false := by revert hrq; cases rq <;> simp
        subst hrq'
        have hs1 : s1 = s := EnsureJob_success_store noFaults s s1 tr1 hE
        rw [hs1] at h
        simp only [jobTail,
          setDbSyncHash_write i s (objectHash (dbSyncJobDesc i)) (fun he => hcond he.symm)] at h
        cases hj : s.job with
        | none =>
          rw [DeleteJob_eval_none { s with api := some { i with status := { i.status with dbSyncHash := objectHash (dbSyncJobDesc i) } } } hj] at h
          simp only [Step.next.injEq] at h
          obtain ⟨hi, hs, htr⟩ := h
          subst hi
          rw [← hs]
          exact ⟨rfl, hj, rfl, rfl, rfl, rfl, rfl, rfl, rfl, rfl⟩
        | some j =>
          rw [DeleteJob_eval_some { s with api := some { i with status := { i.status with dbSyncHash := objectHash (dbSyncJobDesc i) } } } j hj] at h
          simp only [Step.next.injEq] at h
          obtain ⟨hi, hs, htr⟩ := h
          subst hi
          rw [← hs]
          exact ⟨rfl, rfl, rfl, rfl, rfl, rfl, rfl, rfl, rfl, rfl⟩

theorem deploymentPhase_next_char {i : GlanceAPI} {s : Store} {a : Unit} {s' : Store}
    {tr : Trace} (h : deploymentPhase noFaults i s = .next a s' tr) :
    s' = s ∧
      i.status.deploymentHash =
        deploymentObjectHash (deploymentDesc i (objectHash (configMapData i))) ∧
      ∃ d, s.deployment = some d ∧ d.readyReplicas = i.spec.replicas := by
  simp only [deploymentPhase, noFaults, Bool.false_eq_true, if_false] at h
  cases hd : s.deployment with
  | none =>
    simp only [hd] at h
    exact Step.noConfusion h
  | some d =>
    simp only [hd] at h
    by_cases h3 : i.status.deploymentHash =
        deploymentObjectHash (deploymentDesc i (objectHash (configMapData i)))
    · rw [if_neg (fun hne => hne h3)] at h
      by_cases h5 : d.readyReplicas = i.spec.replicas
      · rw [if_pos h5] at h
        simp only [Step.next.injEq] at h
        exact ⟨h.2.1.symm, h3, d, rfl, h5⟩
      · rw [if_neg h5] at h
        exact Step.noConfusion h
    · rw [if_pos h3] at h
      rcases hset : setDeploymentHash noFaults i { s with deployment := some { d with spec := deploymentDesc i (objectHash (configMapData i)) } } (deploymentObjectHash (deploymentDesc i (objectHash (configMapData i)))) with ⟨i2, s2, tr2, e2⟩
      cases e2 with
      | some e0 =>
        simp only [hset] at h
        exact Step.noConfusion h
      | none =>
        simp only [hset] at h
        exact Step.noConfusion h

theorem quiet_pass_store_facts (s : Store)
    (hreq : (reconcile noFaults s).res.requeueAfter = none)
    (herr : (reconcile noFaults s).err = none) :
    (s.api = none ∧ (reconcile noFaults s).store = s) ∨
    (∃ i', (reconcile noFaults s).store.api = some i' ∧
      (reconcile noFaults s).store.pvc = true ∧
      (reconcile noFaults s).store.service = true ∧
      (reconcile noFaults s).store.configMap = some (configMapData i') ∧
      ((reconcile noFaults s).store.schema = some SchemaStatus.completed ∨
        (reconcile noFaults s).store.schema = some SchemaStatus.notCompleted) ∧
      (reconcile noFaults s).store.job = none ∧
      (∃ d, (reconcile noFaults s).store.deployment = some d ∧
        d.readyReplicas = i'.spec.replicas) ∧
      i'.status.dbSyncHash = objectHash (dbSyncJobDesc i') ∧
      i'.status.deploymentHash =
        deploymentObjectHash (deploymentDesc i' (objectHash (configMapData i')))) := by
  have hst : (reconcile noFaults s).store = (passChain noFaults s).finish.store := by
    rw [reconcile]
  rcases @finish_quiet_inv Unit (passChain noFaults s) hreq herr with
    ⟨sD, trD, hdone, hsD⟩ | ⟨a, sN, trN, hnext, hsN⟩
  · -- the pass returned the zero result from inside a phase: only the
    -- instance-NotFound return can do that under noFaults
    have hdone2 : (fetchInstance noFaults s).andThen (fun i s =>
        (pvcPhase noFaults s).andThen fun _ s =>
          (servicePhase noFaults s).andThen fun _ s =>
            (configMapPhase noFaults i s).andThen fun _ s =>
              (schemaPhase noFaults s).andThen fun _ s =>
                (jobPhase noFaults i s).andThen fun i' s =>
                  deploymentPhase noFaults i' s) = .done ⟨none⟩ none sD trD := hdone
    rcases andThen_done_inv hdone2 with hf | ⟨i, s1, tr1, tr', hf, hk, htr⟩
    · obtain ⟨hapi, hs'⟩ := fetchInstance_quiet_done s _ _ hf
      exact Or.inl ⟨hapi, by rw [hst, hsD, hs']⟩
    · exfalso
      rcases andThen_done_inv hk with hp | ⟨a2, s2, tr2, tr2', hp, hk2, _⟩
      · exact pvcPhase_no_quiet_done s1 _ _ hp
      rcases andThen_done_inv hk2 with hv | ⟨a3, s3, tr3, tr3', hv, hk3, _⟩
      · exact servicePhase_no_quiet_done s2 _ _ hv
      rcases andThen_done_inv hk3 with hc | ⟨a4, s4, tr4, tr4', hc, hk4, _⟩
      · exact configMapPhase_no_quiet_done i s3 _ _ hc
      rcases andThen_done_inv hk4 with hsc | ⟨a5, s5, tr5, tr5', hsc, hk5, _⟩
      · exact schemaPhase_no_quiet_done s4 _ _ hsc
      rcases andThen_done_inv hk5 with hjb | ⟨i6, s6, tr6, tr6', hjb, hk6, _⟩
      · exact jobPhase_no_quiet_done i s5 _ _ hjb
      exact deploymentPhase_no_quiet_done i6 s6 _ _ hk6
  · right
    have hnext2 : (fetchInstance noFaults s).andThen (fun i s =>
        (pvcPhase noFaults s).andThen fun _ s =>
          (servicePhase noFaults s).andThen fun _ s =>
            (configMapPhase noFaults i s).andThen fun _ s =>
              (schemaPhase noFaults s).andThen fun _ s =>
                (jobPhase noFaults i s).andThen fun i' s =>
                  deploymentPhase noFaults i' s) = .next a sN trN := hnext
    rcases andThen_next_inv hnext2 with ⟨i, s1, tr1, tr', hf, hk, _⟩
    rcases andThen_next_inv hk with ⟨a2, s2, tr2, tr2', hp, hk2, _⟩
    rcases andThen_next_inv hk2 with ⟨a3, s3, tr3, tr3', hv, hk3, _⟩
    rcases andThen_next_inv hk3 with ⟨a4, s4, tr4, tr4', hc, hk4, _⟩
    rcases andThen_next_inv hk4 with ⟨a5, s5, tr5, tr5', hsc, hk5, _⟩
    rcases andThen_next_inv hk5 with ⟨i6, s6, tr6, tr6', hjb, hk6, _⟩
    obtain ⟨hs1, hapi1⟩ := fetchInstance_next_inv hf
    obtain ⟨hs2, hpvc⟩ := pvcPhase_next_inv hp
    obtain ⟨hs3, hsvc⟩ := servicePhase_next_inv hv
    obtain ⟨hcm4, hapi4, hpvc4, hsvc4, hsch4, hjob4, hdep4⟩ := configMapPhase_next_char hc
    obtain ⟨hsch5, hapi5, hpvc5, hsvc5, hcm5, hjob5, hdep5⟩ := schemaPhase_next_char hsc
    have hapi5' : s5.api = some i := by rw [hapi5, hapi4, hs3, hs2, hs1, hapi1]
    obtain ⟨hapi6, hjob6, hspec6, hdb6, hdh6, hpvc6, hsvc6, hcm6, hsch6, hdep6⟩ :=
      jobPhase_next_char hjb hapi5'
    obtain ⟨hs7, hdh7, d, hd7, hready7⟩ := deploymentPhase_next_char hk6
    have hstore7 : (reconcile noFaults s).store = s6 := by rw [hst, hsN, hs7]
    refine ⟨i6, ?_, ?_, ?_, ?_, ?_, ?_, ⟨d, ?_, ?_⟩, ?_, ?_⟩
    · rw [hstore7, hapi6]
    · rw [hstore7, hpvc6, hpvc5, hpvc4, hs3, hs2, hpvc]
    · rw [hstore7, hsvc6, hsvc5, hsvc4, hs3, hsvc]
    · rw [hstore7, hcm6, hcm5, hcm4, configMapData_congr hspec6]
    · rw [hstore7, hsch6]
      exact hsch5
    · rw [hstore7, hjob6]
    · rw [hstore7]
      exact hd7
    · exact hready7
    · rw [hdb6, dbSyncJobDesc_congr hspec6]
    · rw [hdh7, configMapData_congr hspec6, deploymentDesc_congr hspec6]

theorem converged_pass_readonly (i : GlanceAPI) (s : Store) (d : DeploymentObj)
    (hapi : s.api = some i) (hpvc : s.pvc = true) (hsvc : s.service = true)
    (hcm : s.configMap = some (configMapData i))
    (hsch : s.schema = some SchemaStatus.completed ∨
      s.schema = some SchemaStatus.notCompleted)
    (hjob : s.job = none)
    (hd : s.deployment = some d) (hready : d.readyReplicas = i.spec.replicas)
    (hdb : i.status.dbSyncHash = objectHash (dbSyncJobDesc i))
    (hdh : i.status.deploymentHash =
      deploymentObjectHash (deploymentDesc i (objectHash (configMapData i)))) :
    ∀ x ∈ (reconcile noFaults s).trace, isWrite x = false := by
  rcases hsch with hsch | hsch
  · have hpass : reconcile noFaults s =
        ⟨⟨none⟩, none, s,
          [OpKind.getInstance, OpKind.getPvc, OpKind.getService, OpKind.getConfigMap,
           OpKind.getSchema, OpKind.getJob, OpKind.getDeployment]⟩ := by
      simp only [reconcile, passChain, fetchInstance_eval i s hapi, pvcPhase_eval s hpvc,
        servicePhase_eval s hsvc, configMapPhase_eval i s hcm,
        schemaPhase_eval_completed s hsch, jobPhase_skip_none i s hdb hjob,
        deploymentPhase_eval_ready i s d hd hdh hready,
        Step.next_andThen, Step.withPre_next, Step.finish_next]
      rfl
    rw [hpass]
    intro x hx
    simp only [Outcome.mk.injEq] at hx
    simp at hx
    rcases hx with hx | hx | hx | hx | hx | hx | hx <;> subst hx <;> rfl
  · have hpass : reconcile noFaults s =
        ⟨⟨some 5⟩, none, s,
          [OpKind.getInstance, OpKind.getPvc, OpKind.getService, OpKind.getConfigMap,
           OpKind.getSchema]⟩ := by
      simp only [reconcile, passChain, fetchInstance_eval i s hapi, pvcPhase_eval s hpvc,
        servicePhase_eval s hsvc, configMapPhase_eval i s hcm,
        schemaPhase_eval_waiting s hsch,
        Step.next_andThen, Step.withPre_next, Step.withPre_done, Step.andThen_done,
        Step.finish_done]
      rfl
    rw [hpass]
    intro x hx
    simp at hx
    rcases hx with hx | hx | hx | hx | hx <;> subst hx <;> rfl

/-- C3 counterexample: from a fresh store (no live resources, no external
change between the two calls) the first pass creates the PVC and requeues,
and the immediately following second pass still performs a create call (the
Service create) — so reconciliation invoked twice in succession does perform
additional create calls on the second invocation. -/
theorem c3_second_pass_still_creates :
    OpKind.createService ∈ (reconcile noFaults (reconcile noFaults sC3).store).trace ∧
    isWrite OpKind.createService = true := by decide

/-- C3 (amended): when a pass reports converged — no requeue and no error —
the immediately following pass with no external change performs no create,
update, or status-update call against the object store. -/
theorem c3_idempotent_after_quiet_pass (s : Store)
    (hreq : (reconcile noFaults s).res.requeueAfter = none)
    (herr : (reconcile noFaults s).err = none) :
    ∀ x ∈ (reconcile noFaults (reconcile noFaults s).store).trace, isWrite x = false := by
  rcases quiet_pass_store_facts s hreq herr with ⟨hapi, hstore⟩ | ⟨i', hfacts⟩
  · rw [hstore]
    have hpass : reconcile noFaults s = ⟨⟨none⟩, none, s, [OpKind.getInstance]⟩ := by
      simp [reconcile, passChain, fetchInstance, noFaults, hapi, Step.andThen_done,
        Step.finish]
    rw [hpass]
    intro x hx
    simp at hx
    subst hx
    rfl
  · obtain ⟨hapi2, hpvc2, hsvc2, hcm2, hsch2, hjob2, ⟨d, hd2, hready2⟩, hdb2, hdh2⟩ := hfacts
    exact converged_pass_readonly i' _ d hapi2 hpvc2 hsvc2 hcm2 hsch2 hjob2 hd2 hready2
      hdb2 hdh2

/-- Witness for the amended C3 at the fully converged concrete store,
instantiated at the one call the second pass's trace starts with. -/
theorem c3_idempotent_after_quiet_pass_witness :
    isWrite OpKind.getInstance = false :=
  c3_idempotent_after_quiet_pass sC3w (by decide) (by decide) OpKind.getInstance (by decide)

/-- C2 (amended): when Status already records the DB-sync job's current
fingerprint, `EnsureJob` is skipped entirely — the job phase issues no job
create, no job update and no status write, and signals neither requeue nor
error (control continues to the deployment phase); the phase's only store
interaction is the get issued by the unconditional `DeleteJob` call, plus a
delete when a live job still remains. -/
theorem c2_skip_law_amended (i : GlanceAPI) (s : Store)
    (h : i.status.dbSyncHash = objectHash (dbSyncJobDesc i)) :
    (s.job = none → jobPhase noFaults i s = .next i s [OpKind.getJob]) ∧
    (∀ j, s.job = some j →
      jobPhase noFaults i s =
        .next i { s with job := none } [OpKind.getJob, OpKind.deleteJob]) ∧
    OpKind.createJob ∉ (jobPhase noFaults i s).trace ∧
    OpKind.statusUpdateDbSync ∉ (jobPhase noFaults i s).trace := by
  refine ⟨fun hj => jobPhase_skip_none i s h hj,
          fun j hj => jobPhase_skip_some i s j h hj, ?_, ?_⟩ <;>
  · cases hj : s.job with
    | none => simp [jobPhase_skip_none i s h hj, Step.trace]
    | some j => simp [jobPhase_skip_some i s j h hj, Step.trace]

/-- Witness for the amended C2 at a concrete converged store. -/
theorem c2_skip_law_amended_witness :
    jobPhase noFaults apiC2 sC2 = .next apiC2 sC2 [OpKind.getJob] :=
  (c2_skip_law_amended apiC2 sC2 (by decide)).1 rfl

/-- C5: given a live ConfigMap whose Data differs from the desired Data, one
pass updates it to the desired Data and returns `RequeueAfter: 5s` with no
error, and an immediately following pass with no further changes performs no
ConfigMap update. -/
theorem c5_configmap_drift (i : GlanceAPI) (s : Store) (dat : String)
    (hapi : s.api = some i) (hpvc : s.pvc = true) (hsvc : s.service = true)
    (hcm : s.configMap = some dat) (hne : configMapData i ≠ dat) :
    reconcile noFaults s =
      ⟨⟨some 5⟩, none, { s with configMap := some (configMapData i) },
        [OpKind.getInstance, OpKind.getPvc, OpKind.getService,
         OpKind.getConfigMap, OpKind.updateConfigMap]⟩ ∧
    OpKind.updateConfigMap ∉
      (reconcile noFaults (reconcile noFaults s).store).trace := by
  have h1 : reconcile noFaults s =
      ⟨⟨some 5⟩, none, { s with configMap := some (configMapData i) },
        [OpKind.getInstance, OpKind.getPvc, OpKind.getService,
         OpKind.getConfigMap, OpKind.updateConfigMap]⟩ := by
    simp only [reconcile, passChain, fetchInstance_eval i s hapi, pvcPhase_eval s hpvc,
      servicePhase_eval s hsvc, configMapPhase_drift i s dat hcm hne,
      Step.next_andThen, Step.withPre_done, Step.withPre_next, Step.andThen_done,
      Step.finish_done]
    rfl
  have hstore : (reconcile noFaults s).store =
      { s with configMap := some (configMapData i) } := by rw [h1]
  have hapi1 : ({ s with configMap := some (configMapData i) } : Store).api = some i := hapi
  have hpvc1 : ({ s with configMap := some (configMapData i) } : Store).pvc = true := hpvc
  have hsvc1 : ({ s with configMap := some (configMapData i) } : Store).service = true := hsvc
  refine ⟨h1, ?_⟩
  intro hx
  rw [hstore] at hx
  rw [reconcile, passChain, finish_trace] at hx
  rw [fetchInstance_eval i _ hapi1, trace_next_andThen] at hx
  rcases List.mem_append.mp hx with hx | hx
  · simp at hx
  rw [pvcPhase_eval _ hpvc1, trace_next_andThen] at hx
  rcases List.mem_append.mp hx with hx | hx
  · simp at hx
  rw [servicePhase_eval _ hsvc1, trace_next_andThen] at hx
  rcases List.mem_append.mp hx with hx | hx
  · simp at hx
  rw [configMapPhase_eval i _ rfl, trace_next_andThen] at hx
  rcases List.mem_append.mp hx with hx | hx
  · simp at hx
  have := tail_ops noFaults i _ OpKind.updateConfigMap hx
  simp at this

/-- Witness for C5 at a concrete store whose live ConfigMap Data is stale. -/
theorem c5_configmap_drift_witness :
    reconcile noFaults sC5 =
      ⟨⟨some 5⟩, none, { sC5 with configMap := some (configMapData apiC5) },
        [OpKind.getInstance, OpKind.getPvc, OpKind.getService,
         OpKind.getConfigMap, OpKind.updateConfigMap]⟩ ∧
    OpKind.updateConfigMap ∉
      (reconcile noFaults (reconcile noFaults sC5).store).trace :=
  c5_configmap_drift apiC5 sC5 "stale-data" rfl rfl rfl rfl (by decide)

/-- C6 (amended): when every managed resource exists and matches its desired
description, the gate reports completed, BOTH fingerprints (the job's and the
deployment's) are recorded in Status, and the observed ready replicas equal
the desired count, the pass returns no requeue and no error. -/
theorem c6_terminal_no_action (i : GlanceAPI) (s : Store) (d : DeploymentObj)
    (hapi : s.api = some i) (hpvc : s.pvc = true) (hsvc : s.service = true)
    (hcm : s.configMap = some (configMapData i))
    (hsch : s.schema = some SchemaStatus.completed)
    (hdb : i.status.dbSyncHash = objectHash (dbSyncJobDesc i))
    (hd : s.deployment = some d)
    (hmatch : d.spec = deploymentDesc i (objectHash (configMapData i)))
    (hready : d.readyReplicas = i.spec.replicas)
    (hdh : i.status.deploymentHash =
      deploymentObjectHash (deploymentDesc i (objectHash (configMapData i)))) :
    (reconcile noFaults s).res.requeueAfter = none ∧ (reconcile noFaults s).err = none := by
  cases hj : s.job with
  | none =>
    simp only [reconcile, passChain, fetchInstance_eval i s hapi, pvcPhase_eval s hpvc,
      servicePhase_eval s hsvc, configMapPhase_eval i s hcm,
      schemaPhase_eval_completed s hsch, jobPhase_skip_none i s hdb hj,
      deploymentPhase_eval_ready i s d hd hdh hready,
      Step.next_andThen, Step.withPre_next, Step.finish_next]
    exact ⟨trivial, trivial⟩
  | some j =>
    have hd' : ({ s with job := none } : Store).deployment = some d := hd
    simp only [reconcile, passChain, fetchInstance_eval i s hapi, pvcPhase_eval s hpvc,
      servicePhase_eval s hsvc, configMapPhase_eval i s hcm,
      schemaPhase_eval_completed s hsch, jobPhase_skip_some i s j hdb hj,
      deploymentPhase_eval_ready i { s with job := none } d hd' hdh hready,
      Step.next_andThen, Step.withPre_next, Step.finish_next]
    exact ⟨trivial, trivial⟩

/-- Witness for the amended C6 at the fully converged store. -/
theorem c6_terminal_no_action_witness :
    (reconcile noFaults sC6w).res.requeueAfter = none ∧
    (reconcile noFaults sC6w).err = none :=
  c6_terminal_no_action apiC6w sC6w depC6w rfl rfl rfl rfl rfl (by decide) rfl
    (by decide) (by decide) (by decide)

/-- C7: in every reconciliation pass (any store state, any fault assignment),
a status-hash write happens only after the corresponding operation is
confirmed: the `DbSyncHash` status write occurs only when the live job had
already reached terminal success, and the `DeploymentHash` status write occurs
only when the deployment update call was issued and returned without error —
the pass's trace then ends exactly
`[getDeployment, updateDeployment, statusUpdateDeployment]`. -/
theorem c7_hash_written_only_after_success (f : Faults) (s : Store) :
    (OpKind.statusUpdateDbSync ∈ (reconcile f s).trace →
      ∃ j, s.job = some j ∧ j.succeeded = true) ∧
    (OpKind.statusUpdateDeployment ∈ (reconcile f s).trace →
      f OpKind.updateDeployment = false ∧
      ∃ pre, (reconcile f s).trace =
        pre ++ [OpKind.getDeployment, OpKind.updateDeployment,
                OpKind.statusUpdateDeployment]) := by
  constructor
  · intro hx
    rw [reconcile, finish_trace, passChain] at hx
    rcases mem_andThen_strong hx with hx | ⟨i, s1, tr1, hfetch, hx⟩
    · rw [trace_fetchInstance] at hx
      simp at hx
    rcases mem_andThen_strong hx with hx | ⟨a2, s2, tr2, hpvc2, hx⟩
    · rcases trace_pvcPhase f s1 _ hx with h' | h' <;> exact absurd h' (by decide)
    rcases mem_andThen_strong hx with hx | ⟨a3, s3, tr3, hsvc3, hx⟩
    · rcases trace_servicePhase f s2 _ hx with h' | h' <;> exact absurd h' (by decide)
    rcases mem_andThen_strong hx with hx | ⟨a4, s4, tr4, hcm4, hx⟩
    · rcases trace_configMapPhase f i s3 _ hx with h' | h' | h' <;>
        exact absurd h' (by decide)
    rcases mem_andThen_strong hx with hx | ⟨a5, s5, tr5, hsch5, hx⟩
    · rcases trace_schemaPhase f s4 _ hx with h' | h' <;> exact absurd h' (by decide)
    rcases mem_andThen_strong hx with hx | ⟨i6, s6, tr6, hjob6, hx⟩
    · have hfound := jobPhase_statusUpdate f i s5 hx
      obtain ⟨hs1, _⟩ := fetchInstance_next_inv hfetch
      obtain ⟨hs2, _⟩ := pvcPhase_next_inv hpvc2
      obtain ⟨hs3, _⟩ := servicePhase_next_inv hsvc3
      have hj4 := configMapPhase_next_job hcm4
      have hj5 := schemaPhase_next_job hsch5
      rw [hj5, hj4, hs3, hs2, hs1] at hfound
      exact hfound
    · rcases trace_deploymentPhase f i6 s6 _ hx with h' | h' | h' | h' <;>
        exact absurd h' (by decide)
  · intro hx
    rw [reconcile, finish_trace, passChain] at hx ⊢
    rcases mem_andThen_strong hx with hx | ⟨i, s1, tr1, hfetch, hx⟩
    · rw [trace_fetchInstance] at hx
      simp at hx
    rcases mem_andThen_strong hx with hx | ⟨a2, s2, tr2, hpvc2, hx⟩
    · rcases trace_pvcPhase f s1 _ hx with h' | h' <;> exact absurd h' (by decide)
    rcases mem_andThen_strong hx with hx | ⟨a3, s3, tr3, hsvc3, hx⟩
    · rcases trace_servicePhase f s2 _ hx with h' | h' <;> exact absurd h' (by decide)
    rcases mem_andThen_strong hx with hx | ⟨a4, s4, tr4, hcm4, hx⟩
    · rcases trace_configMapPhase f i s3 _ hx with h' | h' | h' <;>
        exact absurd h' (by decide)
    rcases mem_andThen_strong hx with hx | ⟨a5, s5, tr5, hsch5, hx⟩
    · rcases trace_schemaPhase f s4 _ hx with h' | h' <;> exact absurd h' (by decide)
    rcases mem_andThen_strong hx with hx | ⟨i6, s6, tr6, hjob6, hx⟩
    · rcases trace_jobPhase f i s5 _ hx with h' | h' | h' | h' <;>
        exact absurd h' (by decide)
    obtain ⟨hf, htr⟩ := deploymentPhase_statusUpdate f i6 s6 hx
    refine ⟨hf, tr1 ++ tr2 ++ tr3 ++ tr4 ++ tr5 ++ tr6, ?_⟩
    simp only [hfetch, hpvc2, hsvc3, hcm4, hsch5, hjob6, trace_next_andThen, htr]
    simp [List.append_assoc]

/-- Witness for C7 at a concrete store whose job has succeeded and whose
deployment needs an update: that pass writes both hashes. -/
theorem c7_hash_written_only_after_success_witness :
    (∃ j, sC7.job = some j ∧ j.succeeded = true) ∧
    (noFaults OpKind.updateDeployment = false ∧
      ∃ pre, (reconcile noFaults sC7).trace =
        pre ++ [OpKind.getDeployment, OpKind.updateDeployment,
                OpKind.statusUpdateDeployment]) :=
  ⟨(c7_hash_written_only_after_success noFaults sC7).1 (by decide),
   (c7_hash_written_only_after_success noFaults sC7).2 (by decide)⟩

/-- C6 counterexample: every managed resource exists and matches its desired
description, the gate is completed, the job fingerprint is recorded and the
ready replicas equal the desired count, yet — because `Status.DeploymentHash`
was never recorded — the pass returns `RequeueAfter: 10s`, not the no-action
result. -/
theorem c6_requeues_when_deployment_hash_unrecorded :
    depC6.spec = deploymentDesc apiC6 (objectHash (configMapData apiC6)) ∧
    depC6.readyReplicas = apiC6.spec.replicas ∧
    sC6.schema = some SchemaStatus.completed ∧
    apiC6.status.dbSyncHash = objectHash (dbSyncJobDesc apiC6) ∧
    (reconcile noFaults sC6).res.requeueAfter = some 10 := by decide

end GlanceOp
